import Mathlib

/-!
Verification of the Lightwave Explorer result-loading subsystem
(`LightwaveExplorer.py`): manifest parsing, grid-dimension derivation,
column-major binary decoding with polarization de-interleaving, batch-axis
reconstruction, and multi-shard fusion.

Numeric values (IEEE doubles in the source) are modelled as exact rationals;
machine floats are idealized as `ℚ`.  Decimal literals such as `1e-15` denote
their exact decimal value.  `np.pi` is modelled by the exact rational value of
the 64-bit float constant `np.pi`.
-/

deriving instance DecidableEq for Except

namespace LWE

/-- The exact rational value of the float64 constant `np.pi`
(3.141592653589793115997963468544185161590576171875 = 884279719003555 / 2^48). -/
def npPi : ℚ := 884279719003555 / 281474976710656

/-- Python `int()` applied to a (modelled) float: truncation toward zero. -/
def pyInt (q : ℚ) : ℤ := if q < 0 then -⌊-q⌋ else ⌊q⌋

/-- `np.round`: round half to even (banker's rounding), as numpy does. -/
def npRound (q : ℚ) : ℤ :=
  let f := ⌊q⌋
  let r := q - f
  if r < 1/2 then f
  else if 1/2 < r then f + 1
  else if f % 2 = 0 then f else f + 1

/-- `np.linspace(start, stop, num)` with `endpoint=True`, in exact arithmetic:
`num` evenly spaced values from `start` to `stop` inclusive; a single-element
vector `[start]` when `num = 1`, empty when `num = 0`. -/
def npLinspace (start stop : ℚ) (num : ℕ) : List ℚ :=
  if num = 1 then [start]
  else (List.range num).map (fun (k : ℕ) => start + (k : ℚ) * (stop - start) / ((num : ℚ) - 1))

/-- `np.fft.fftfreq(n, d)`: sample frequencies
`[0, 1, ..., (n-1)//2, -(n//2), ..., -1] / (n*d)`. -/
def npFftfreq (n : ℕ) (d : ℚ) : List ℚ :=
  (List.range n).map (fun k =>
    if 2 * k < n then (k : ℚ) / (n * d) else ((k : ℚ) - n) / (n * d))

/-- The scalar parameters of a simulation run, one field per schema name of
`parameterNames`, in manifest order.  The five integral parameters
(`symmetryType`, `batchIndex`, `Nsims`, `batchIndex2`, `Nsims2`) are stored
post-`int()`-cast as `ℤ`, the others as (modelled) floats `ℚ`. -/
structure Params where
  pulseEnergy1 : ℚ := 0
  pulseEnergy2 : ℚ := 0
  frequency1 : ℚ := 0
  frequency2 : ℚ := 0
  bandwidth1 : ℚ := 0
  bandwidth2 : ℚ := 0
  superGaussianOrder1 : ℚ := 0
  superGaussianOrder2 : ℚ := 0
  cePhase1 : ℚ := 0
  cePhase2 : ℚ := 0
  delay1 : ℚ := 0
  delay2 : ℚ := 0
  gdd1 : ℚ := 0
  gdd2 : ℚ := 0
  tod1 : ℚ := 0
  tod2 : ℚ := 0
  phaseMaterialIndex1 : ℚ := 0
  phaseMaterialIndex2 : ℚ := 0
  phaseMaterialThickness1 : ℚ := 0
  phaseMaterialthickness2 : ℚ := 0
  BeamModeParameter : ℚ := 0
  beamwaist1 : ℚ := 0
  beamwaist2 : ℚ := 0
  x01 : ℚ := 0
  x02 : ℚ := 0
  y01 : ℚ := 0
  y02 : ℚ := 0
  z01 : ℚ := 0
  z02 : ℚ := 0
  propagationAngle1 : ℚ := 0
  propagationAngle2 : ℚ := 0
  propagationAnglePhi1 : ℚ := 0
  propagationAnglePhi2 : ℚ := 0
  polarizationAngle1 : ℚ := 0
  polarizationAngle2 : ℚ := 0
  circularity1 : ℚ := 0
  circularity2 : ℚ := 0
  materialIndex : ℚ := 0
  materialIndexAlternate : ℚ := 0
  crystalTheta : ℚ := 0
  crystalPhi : ℚ := 0
  spatialWidth : ℚ := 0
  spatialHeight : ℚ := 0
  spatialStep : ℚ := 0
  timeSpan : ℚ := 0
  timeStep : ℚ := 0
  crystalThickness : ℚ := 0
  propagationStep : ℚ := 0
  nonlinearAbsorptionStrength : ℚ := 0
  bandGapElectronVolts : ℚ := 0
  effectiveMass : ℚ := 0
  drudeGamma : ℚ := 0
  symmetryType : ℤ := 0
  batchIndex : ℤ := 0
  batchDestination : ℚ := 0
  Nsims : ℤ := 0
  batchIndex2 : ℤ := 0
  batchDestination2 : ℚ := 0
  Nsims2 : ℤ := 0
deriving DecidableEq

/-- The fixed manifest schema: all parameter names in the order they appear in
the source list `parameterNames`. -/
def parameterNames : List String :=
  ["pulseEnergy1", "pulseEnergy2", "frequency1", "frequency2",
   "bandwidth1", "bandwidth2", "superGaussianOrder1", "superGaussianOrder2",
   "cePhase1", "cePhase2", "delay1", "delay2", "gdd1", "gdd2", "tod1", "tod2",
   "phaseMaterialIndex1", "phaseMaterialIndex2", "phaseMaterialThickness1",
   "phaseMaterialthickness2", "BeamModeParameter", "beamwaist1", "beamwaist2",
   "x01", "x02", "y01", "y02", "z01", "z02",
   "propagationAngle1", "propagationAngle2",
   "propagationAnglePhi1", "propagationAnglePhi2",
   "polarizationAngle1", "polarizationAngle2",
   "circularity1", "circularity2", "materialIndex", "materialIndexAlternate",
   "crystalTheta", "crystalPhi", "spatialWidth", "spatialHeight", "spatialStep",
   "timeSpan", "timeStep", "crystalThickness", "propagationStep",
   "nonlinearAbsorptionStrength", "bandGapElectronVolts", "effectiveMass",
   "drudeGamma", "symmetryType", "batchIndex", "batchDestination", "Nsims",
   "batchIndex2", "batchDestination2", "Nsims2"]

/-- Bind the list of parsed manifest values (one float per schema line, in
schema order) to the parameter fields, applying the `int()` cast to the five
integral parameters (`Nsims`, `Nsims2`, `symmetryType`, `batchIndex`,
`batchIndex2`) as the constructor does. -/
def mkParams (qs : List ℚ) : Params where
  pulseEnergy1 := qs.getD 0 0
  pulseEnergy2 := qs.getD 1 0
  frequency1 := qs.getD 2 0
  frequency2 := qs.getD 3 0
  bandwidth1 := qs.getD 4 0
  bandwidth2 := qs.getD 5 0
  superGaussianOrder1 := qs.getD 6 0
  superGaussianOrder2 := qs.getD 7 0
  cePhase1 := qs.getD 8 0
  cePhase2 := qs.getD 9 0
  delay1 := qs.getD 10 0
  delay2 := qs.getD 11 0
  gdd1 := qs.getD 12 0
  gdd2 := qs.getD 13 0
  tod1 := qs.getD 14 0
  tod2 := qs.getD 15 0
  phaseMaterialIndex1 := qs.getD 16 0
  phaseMaterialIndex2 := qs.getD 17 0
  phaseMaterialThickness1 := qs.getD 18 0
  phaseMaterialthickness2 := qs.getD 19 0
  BeamModeParameter := qs.getD 20 0
  beamwaist1 := qs.getD 21 0
  beamwaist2 := qs.getD 22 0
  x01 := qs.getD 23 0
  x02 := qs.getD 24 0
  y01 := qs.getD 25 0
  y02 := qs.getD 26 0
  z01 := qs.getD 27 0
  z02 := qs.getD 28 0
  propagationAngle1 := qs.getD 29 0
  propagationAngle2 := qs.getD 30 0
  propagationAnglePhi1 := qs.getD 31 0
  propagationAnglePhi2 := qs.getD 32 0
  polarizationAngle1 := qs.getD 33 0
  polarizationAngle2 := qs.getD 34 0
  circularity1 := qs.getD 35 0
  circularity2 := qs.getD 36 0
  materialIndex := qs.getD 37 0
  materialIndexAlternate := qs.getD 38 0
  crystalTheta := qs.getD 39 0
  crystalPhi := qs.getD 40 0
  spatialWidth := qs.getD 41 0
  spatialHeight := qs.getD 42 0
  spatialStep := qs.getD 43 0
  timeSpan := qs.getD 44 0
  timeStep := qs.getD 45 0
  crystalThickness := qs.getD 46 0
  propagationStep := qs.getD 47 0
  nonlinearAbsorptionStrength := qs.getD 48 0
  bandGapElectronVolts := qs.getD 49 0
  effectiveMass := qs.getD 50 0
  drudeGamma := qs.getD 51 0
  symmetryType := pyInt (qs.getD 52 0)
  batchIndex := pyInt (qs.getD 53 0)
  batchDestination := qs.getD 54 0
  Nsims := pyInt (qs.getD 55 0)
  batchIndex2 := pyInt (qs.getD 56 0)
  batchDestination2 := qs.getD 57 0
  Nsims2 := pyInt (qs.getD 58 0)

/-! ### Manifest parsing (`readLine` and the parameter loop)

The source extracts from each manifest line all matches of the regular
expression `[-+]?[.]?[\d]+(?:,\d\d\d)*[\.]?\d*(?:[eE][-+]?\d+)?` and converts
the last one with Python `float`.  For this particular pattern, greedy
left-to-right matching never benefits from backtracking (once at least one
digit is consumed a match always succeeds, and each later optional component
starts with a character no earlier component can absorb), so `re.findall` is
modelled by a deterministic greedy scanner. -/

/-- Consume an optional leading sign. -/
def optSign : List Char → List Char × List Char
  | c :: rest => if c = '+' ∨ c = '-' then ([c], rest) else ([], c :: rest)
  | [] => ([], [])

/-- Consume an optional dot. -/
def optDot : List Char → List Char × List Char
  | c :: rest => if c = '.' then ([c], rest) else ([], c :: rest)
  | [] => ([], [])

/-- Consume a maximal run of ASCII digits. -/
def spanDigits (s : List Char) : List Char × List Char :=
  (s.takeWhile Char.isDigit, s.dropWhile Char.isDigit)

/-- Consume a maximal run of thousands-separator groups `,ddd`. -/
def commaGroups : List Char → List Char × List Char
  | ',' :: a :: b :: c :: rest =>
    if a.isDigit && b.isDigit && c.isDigit then
      let p := commaGroups rest
      (',' :: a :: b :: c :: p.1, p.2)
    else ([], ',' :: a :: b :: c :: rest)
  | s => ([], s)

/-- Consume an optional exponent `[eE][-+]?\d+` (greedy; if no digit follows
the `e`/`E` marker, nothing is consumed). -/
def expPart (s : List Char) : List Char × List Char :=
  match s with
  | e :: rest =>
    if e = 'e' ∨ e = 'E' then
      let p := optSign rest
      let d := spanDigits p.2
      if d.1 = [] then ([], s)
      else (e :: (p.1 ++ d.1), d.2)
    else ([], s)
  | [] => ([], [])

lemma optSign_append (s : List Char) : (optSign s).1 ++ (optSign s).2 = s := by
  cases s with
  | nil => rfl
  | cons c rest => by_cases h : c = '+' ∨ c = '-' <;> simp [optSign, h]

lemma optDot_append (s : List Char) : (optDot s).1 ++ (optDot s).2 = s := by
  cases s with
  | nil => rfl
  | cons c rest => by_cases h : c = '.' <;> simp [optDot, h]

lemma spanDigits_append (s : List Char) : (spanDigits s).1 ++ (spanDigits s).2 = s := by
  simp [spanDigits]

lemma commaGroups_append (s : List Char) : (commaGroups s).1 ++ (commaGroups s).2 = s := by
  induction s using commaGroups.induct with
  | case1 a b c rest h ih => simp only [commaGroups, h, if_true]; simpa using ih
  | case2 a b c rest h => simp [commaGroups, h]
  | case3 s h => rw [commaGroups]; rfl; exact h

lemma expPart_append (s : List Char) : (expPart s).1 ++ (expPart s).2 = s := by
  cases s with
  | nil => rfl
  | cons e rest =>
    by_cases he : e = 'e' ∨ e = 'E'
    · simp only [expPart, he, if_true]
      by_cases hd : (spanDigits (optSign rest).2).1 = []
      · simp [hd]
      · simp only [hd, if_false]
        have h1 := optSign_append rest
        have h2 := spanDigits_append (optSign rest).2
        simp only [List.cons_append, List.append_assoc, h2, h1]
    · simp [expPart, he]

/-- Greedy match of the numeric-token pattern at the start of `s`: returns the
matched token and the remainder, or `none` when no match starts here. -/
def matchNum (s : List Char) : Option (List Char × List Char) :=
  let p1 := optSign s
  let p2 := optDot p1.2
  let p3 := spanDigits p2.2
  if p3.1 = [] then none
  else
    let p4 := commaGroups p3.2
    let p5 := optDot p4.2
    let p6 := spanDigits p5.2
    let p7 := expPart p6.2
    some (p1.1 ++ (p2.1 ++ (p3.1 ++ (p4.1 ++ (p5.1 ++ (p6.1 ++ p7.1))))), p7.2)

lemma matchNum_spec {s t r : List Char} (h : matchNum s = some (t, r)) :
    t ++ r = s ∧ 1 ≤ t.length := by
  unfold matchNum at h
  by_cases h3 : (spanDigits (optDot (optSign s).2).2).1 = []
  · simp [h3] at h
  · simp only [h3, if_false, Option.some.injEq, Prod.mk.injEq] at h
    obtain ⟨ht, hr⟩ := h
    constructor
    · subst ht hr
      simp only [List.append_assoc, expPart_append, spanDigits_append, optDot_append,
        commaGroups_append, optSign_append]
    · subst ht
      have : 1 ≤ (spanDigits (optDot (optSign s).2).2).1.length := by
        cases hx : (spanDigits (optDot (optSign s).2).2).1 with
        | nil => exact absurd hx h3
        | cons a l => simp
      simp only [List.length_append]
      omega

lemma matchNum_rest_lt {s t r : List Char} (h : matchNum s = some (t, r)) :
    r.length < s.length := by
  obtain ⟨happ, hlen⟩ := matchNum_spec h
  have := congrArg List.length happ
  simp only [List.length_append] at this
  omega

/-- Scanner loop with an explicit step counter (each step consumes at least
one character — `matchNum_rest_lt` — so `fuel = s.length` computes the full
scan; structural recursion on the counter keeps the function kernel-reducible). -/
def findallAux : ℕ → List Char → List (List Char)
  | 0, _ => []
  | fuel + 1, s =>
    match matchNum s with
    | some (t, r) => t :: findallAux fuel r
    | none =>
      match s with
      | [] => []
      | _ :: rest => findallAux fuel rest

/-- `re.findall` of the numeric-token pattern: scan left to right, at each
position emit the greedy match if one starts there (resuming after it),
otherwise advance one character. -/
def findallNum (s : List Char) : List (List Char) :=
  findallAux s.length s

/-- Numeric value of a digit string. -/
def natOfDigits (ds : List Char) : ℕ :=
  ds.foldl (fun a c => 10 * a + (c.toNat - 48)) 0

/-- `10 ^ n` on `ℚ` by structural recursion (kernel-reducible). -/
def qpow10 : ℕ → ℚ
  | 0 => 1
  | n + 1 => 10 * qpow10 n

/-- `10 ^ e` for an integer exponent. -/
def pow10 (e : ℤ) : ℚ :=
  if 0 ≤ e then qpow10 e.toNat else 1 / qpow10 (-e).toNat

/-- Optional exponent accepted by Python `float`: empty, or `e`/`E` followed by
an optional sign and at least one digit, consuming the whole remainder. -/
def pyExp : List Char → Option ℤ
  | [] => some 0
  | e :: rest =>
    if e = 'e' ∨ e = 'E' then
      let p := optSign rest
      let d := spanDigits p.2
      if d.1 = [] ∨ d.2 ≠ [] then none
      else some ((if p.1 = ['-'] then -1 else 1) * (natOfDigits d.1 : ℤ))
    else none

/-- Python `float(string)` restricted to the token alphabet the scanner can
produce (signs, digits, dots, commas, exponents): `some` exactly on valid
float literals `[sign] (digits [. digits] | digits . | . digits) [exp]`;
in particular any token containing a comma (or a second dot) is rejected,
as Python `float` raises `ValueError` on it. -/
def pyFloat (s : List Char) : Option ℚ :=
  let p1 := optSign s
  let sgn : ℚ := if p1.1 = ['-'] then -1 else 1
  let ip := spanDigits p1.2
  match hd : ip.2 with
  | '.' :: rest =>
    let fp := spanDigits rest
    if ip.1 = [] ∧ fp.1 = [] then none
    else (pyExp fp.2).map (fun e =>
      sgn * ((natOfDigits ip.1 : ℚ) + (natOfDigits fp.1 : ℚ) / qpow10 fp.1.length)
        * pow10 e)
  | _ =>
    if ip.1 = [] then none
    else (pyExp ip.2).map (fun e => sgn * (natOfDigits ip.1 : ℚ) * pow10 e)

/-- The errors the Python loader can raise while reading the manifest:
`indexError` models `IndexError` (missing line / no regex match),
`valueError` models `ValueError` (from `float`). -/
inductive PyErr where
  | indexError : PyErr
  | valueError : PyErr
deriving DecidableEq

/-- The nested helper `readLine`: find all numeric tokens in the line and
convert the last one with `float`.  `rr[-1]` on an empty match list raises
`IndexError`; `float` on an unconvertible token raises `ValueError`. -/
def readLine (line : List Char) : Except PyErr ℚ :=
  match (findallNum line).getLast? with
  | none => Except.error PyErr.indexError
  | some t =>
    match pyFloat t with
    | none => Except.error PyErr.valueError
    | some q => Except.ok q

/-- The body of the parameter-binding loop over a list of line indices:
read `lines[i]` (out of range raises `IndexError`) and parse it with
`readLine`, stopping at the first error, in index order. -/
def readIndices (lines : List (List Char)) : List ℕ → Except PyErr (List ℚ)
  | [] => Except.ok []
  | i :: is =>
    match lines[i]? with
    | none => Except.error PyErr.indexError
    | some l =>
      match readLine l with
      | Except.error e => Except.error e
      | Except.ok q =>
        match readIndices lines is with
        | Except.error e => Except.error e
        | Except.ok qs => Except.ok (q :: qs)

/-- The parameter-binding loop: for each index into `parameterNames`, read the
value from the corresponding manifest line. -/
def readAllParams (lines : List (List Char)) : Except PyErr (List ℚ) :=
  readIndices lines (List.range parameterNames.length)

/-- Full manifest load: bind the parsed values to the parameter fields with
the integer casts applied. -/
def loadParams (lines : List (List Char)) : Except PyErr Params :=
  (readAllParams lines).map mkParams

/-- The derived grid dimensions computed right after the parameters are read. -/
structure GridDims where
  Ntime : ℤ
  Nfreq : ℤ
  fStep : ℚ
  Nspace : ℤ
  Nspace2 : ℤ
  Ngrid : ℤ
deriving DecidableEq

/-- Grid-dimension derivation, mirroring the derived-parameter block of the
constructor (`MIN_GRIDDIM = 8`). -/
def deriveGrid (p : Params) : GridDims :=
  let MIN_GRIDDIM : ℤ := 8
  let Ntime := MIN_GRIDDIM * npRound (p.timeSpan / (8 * p.timeStep))
  let Nfreq := Ntime / 2 + 1
  let fStep := 1 / ((Ntime : ℚ) * p.timeStep)
  let Nspace := MIN_GRIDDIM * npRound (p.spatialWidth / (8 * p.spatialStep))
  let Nspace2 :=
    if p.symmetryType = 2 ∨ p.symmetryType = 4 then
      MIN_GRIDDIM * npRound (p.spatialHeight / (8 * p.spatialStep))
    else 1
  { Ntime := Ntime, Nfreq := Nfreq, fStep := fStep,
    Nspace := Nspace, Nspace2 := Nspace2, Ngrid := Ntime * Nspace * Nspace2 }

/-! ### numpy array model

Arrays are modelled by a shape together with flat data stored in
column-major (Fortran) order: the first index varies fastest.  `np.reshape`
with `order='F'` of a flat buffer is then just attaching a shape, and
`np.squeeze` (a view) leaves the flat data unchanged. -/

/-- Column-major (first index fastest) offset of a multi-index in a shape:
`offsetF [d0, d1, ...] [i0, i1, ...] = i0 + d0 * (i1 + d1 * (...))`. -/
def offsetF : List ℕ → List ℕ → ℕ
  | [], _ => 0
  | _, [] => 0
  | d :: ds, i :: is => i + d * offsetF ds is

/-- Inverse of `offsetF`: recover the column-major multi-index of a flat
position. -/
def unoffsetF : List ℕ → ℕ → List ℕ
  | [], _ => []
  | d :: ds, m => m % d :: unoffsetF ds (m / d)

/-- A numpy array: shape plus flat column-major data. -/
structure NDArray where
  shape : List ℕ
  data : List ℚ
deriving DecidableEq

/-- Element at a multi-index (0 outside the data). -/
def NDArray.get (a : NDArray) (idx : List ℕ) : ℚ :=
  a.data.getD (offsetF a.shape idx) 0

/-- `np.reshape(buf, shape, order='F')` from a flat buffer: succeeds exactly
when the element count matches the shape's product (else numpy raises). -/
def reshapeF (shape : List ℕ) (buf : List ℚ) : Option NDArray :=
  if buf.length = shape.prod then some ⟨shape, buf⟩ else none

/-- Build a new array whose element at multi-index `idx` is `a.get (f idx)`:
the common core of slicing, integer indexing and transposition. -/
def NDArray.gather (a : NDArray) (newShape : List ℕ) (f : List ℕ → List ℕ) : NDArray :=
  ⟨newShape, (List.range newShape.prod).map (fun m => a.get (f (unoffsetF newShape m)))⟩

/-- Number of elements selected by a basic slice `start:stop:step` (positive
`step`) from an axis of extent `dim`, as numpy computes it (with `stop`
clamped to the extent). -/
def sliceLen (start stop step dim : ℕ) : ℕ :=
  (min stop dim - start + step - 1) / step

/-- Basic strided slice `start:stop:step` along one axis (all other axes
taken in full). -/
def NDArray.sliceAxis (a : NDArray) (axis start stop step : ℕ) : NDArray :=
  let d := a.shape.getD axis 0
  let n := sliceLen start stop step d
  a.gather (a.shape.set axis n) (fun idx => idx.set axis (start + step * idx.getD axis 0))

/-- Insert a value at a position in a list (used to re-insert a fixed index
for integer indexing). -/
def insertAt : ℕ → ℕ → List ℕ → List ℕ
  | 0, a, l => a :: l
  | _ + 1, a, [] => [a]
  | n + 1, a, x :: l => x :: insertAt n a l

/-- Integer indexing along one axis (`arr[:, c, :, :]` style): the axis is
removed from the shape. -/
def NDArray.indexAxis (a : NDArray) (axis c : ℕ) : NDArray :=
  a.gather (a.shape.eraseIdx axis) (fun idx => insertAt axis c idx)

/-- `np.squeeze`: drop all axes of extent 1.  As a view in column-major
layout, the flat data is unchanged. -/
def NDArray.squeeze (a : NDArray) : NDArray :=
  ⟨a.shape.filter (fun d => d != 1), a.data⟩

/-- `.T`: reverse the order of all axes. -/
def NDArray.transposeT (a : NDArray) : NDArray :=
  a.gather a.shape.reverse (fun idx => idx.reverse)

/-- The load-failure taxonomy of the binary decoders.  `TruncatedBinaryData`
models the `ValueError` numpy raises when the buffer sliced to the required
element count is too short to fill the declared shape. -/
inductive LoadError where
  | TruncatedBinaryData : LoadError
deriving DecidableEq

/-! ### Binary field and spectrum decoders -/

/-- Decode the field blob (a sequence of doubles, column-major), mirroring the
`loadFieldArray` branch of the constructor: slice the buffer to
`2*Ngrid*Nsims*Nsims2` elements, reshape to `(Ntime, Nspace, 2*Nsims, Nsims2)`
(planar) or `(Ntime, Nspace, Nspace2, 2*Nsims, Nsims2)` (when
`symmetryType ∈ {2,4}`), de-interleave polarization by even/odd slices along
the `2*Nsims` axis, and squeeze.  Returns `(Ext_x, Ext_y)`. -/
def decodeField (blob : List ℚ) (sym : ℤ) (Ntime Nspace Nspace2 Nsims Nsims2 : ℕ) :
    Except LoadError (NDArray × NDArray) :=
  let Ngrid := Ntime * Nspace * Nspace2
  if sym = 2 ∨ sym = 4 then
    match reshapeF [Ntime, Nspace, Nspace2, 2 * Nsims, Nsims2]
        (blob.take (2 * Ngrid * Nsims * Nsims2)) with
    | none => Except.error LoadError.TruncatedBinaryData
    | some Ext =>
      Except.ok ((Ext.sliceAxis 3 0 (2 * Nsims) 2).squeeze,
                 (Ext.sliceAxis 3 1 (2 * Nsims + 1) 2).squeeze)
  else
    match reshapeF [Ntime, Nspace, 2 * Nsims, Nsims2]
        (blob.take (2 * Ngrid * Nsims * Nsims2)) with
    | none => Except.error LoadError.TruncatedBinaryData
    | some Ext =>
      Except.ok ((Ext.sliceAxis 2 0 (2 * Nsims) 2).squeeze,
                 (Ext.sliceAxis 2 1 (2 * Nsims + 1) 2).squeeze)

/-- The archive-entry branch of the field decode (from `np.frombuffer` on the
bytes of the zip entry instead of `np.fromfile`): the decoding expression is
the same. -/
def decodeFieldZip (blob : List ℚ) (sym : ℤ) (Ntime Nspace Nspace2 Nsims Nsims2 : ℕ) :
    Except LoadError (NDArray × NDArray) :=
  let Ngrid := Ntime * Nspace * Nspace2
  if sym = 2 ∨ sym = 4 then
    match reshapeF [Ntime, Nspace, Nspace2, 2 * Nsims, Nsims2]
        (blob.take (2 * Ngrid * Nsims * Nsims2)) with
    | none => Except.error LoadError.TruncatedBinaryData
    | some Ext =>
      Except.ok ((Ext.sliceAxis 3 0 (2 * Nsims) 2).squeeze,
                 (Ext.sliceAxis 3 1 (2 * Nsims + 1) 2).squeeze)
  else
    match reshapeF [Ntime, Nspace, 2 * Nsims, Nsims2]
        (blob.take (2 * Ngrid * Nsims * Nsims2)) with
    | none => Except.error LoadError.TruncatedBinaryData
    | some Ext =>
      Except.ok ((Ext.sliceAxis 2 0 (2 * Nsims) 2).squeeze,
                 (Ext.sliceAxis 2 1 (2 * Nsims + 1) 2).squeeze)

/-- Decode the spectrum blob: slice to `3*Nfreq*Nsims*Nsims2` elements,
reshape to `(Nfreq, 3, Nsims, Nsims2)` column-major, take channels 0, 1, 2,
squeeze and transpose.  Returns `(spectrum_x, spectrum_y, spectrumTotal)`. -/
def decodeSpectrum (blob : List ℚ) (Nfreq Nsims Nsims2 : ℕ) :
    Except LoadError (NDArray × NDArray × NDArray) :=
  match reshapeF [Nfreq, 3, Nsims, Nsims2] (blob.take (3 * Nfreq * Nsims * Nsims2)) with
  | none => Except.error LoadError.TruncatedBinaryData
  | some Raw =>
    Except.ok (((Raw.indexAxis 1 0).squeeze).transposeT,
               ((Raw.indexAxis 1 1).squeeze).transposeT,
               ((Raw.indexAxis 1 2).squeeze).transposeT)

/-! ### Batch axis reconstruction (the two `elif` chains) -/

/-- The first `elif` chain's start value: which parameter (or 0) supplies
`batchStart` for each `batchIndex`; `none` models an `AttributeError`: either
the chain falls through without setting `batchStart` (index outside 0–37, so
the subsequent `np.linspace` reads an unset attribute), or — at index 16 —
the branch reads `self.phaseMaterialThickness2`, an attribute that does not
exist because the manifest schema binds the lowercase name
`phaseMaterialthickness2`. -/
def batchStartOf (p : Params) : ℤ → Option ℚ
  | 0 => some 0
  | 1 => some p.pulseEnergy1
  | 2 => some p.pulseEnergy2
  | 3 => some p.frequency1
  | 4 => some p.frequency2
  | 5 => some p.frequency1
  | 6 => some p.frequency2
  | 7 => some p.cePhase1
  | 8 => some p.cePhase2
  | 9 => some p.delay1
  | 10 => some p.delay2
  | 11 => some p.gdd1
  | 12 => some p.gdd2
  | 13 => some p.tod1
  | 14 => some p.tod2
  | 15 => some p.phaseMaterialThickness1
  | 16 => none
  | 17 => some p.beamwaist1
  | 18 => some p.beamwaist2
  | 19 => some p.x01
  | 20 => some p.x02
  | 21 => some p.z01
  | 22 => some p.z02
  | 23 => some p.propagationAngle1
  | 24 => some p.propagationAngle2
  | 25 => some p.polarizationAngle1
  | 26 => some p.polarizationAngle2
  | 27 => some p.circularity1
  | 28 => some p.circularity2
  | 29 => some p.crystalTheta
  | 30 => some p.crystalPhi
  | 31 => some p.nonlinearAbsorptionStrength
  | 32 => some p.drudeGamma
  | 33 => some p.effectiveMass
  | 34 => some p.crystalThickness
  | 35 => some p.propagationStep
  | 36 => some 0
  | 37 => some 0
  | _ => none

/-- The unit-scale factor the first chain multiplies into `batchDestination`
(1 for the branches that do not rescale). -/
def batchScaleOf : ℤ → ℚ
  | 3 => 1e12
  | 4 => 1e12
  | 5 => 1e12
  | 6 => 1e12
  | 7 => npPi
  | 8 => npPi
  | 9 => 1e-15
  | 10 => 1e-15
  | 11 => 1e-30
  | 12 => 1e-30
  | 13 => 1e-45
  | 14 => 1e-45
  | 15 => 1e-6
  | 16 => 1e-6
  | 17 => 1e-6
  | 18 => 1e-6
  | 19 => 1e-6
  | 20 => 1e-6
  | 21 => 1e-6
  | 22 => 1e-6
  | 23 => npPi / 180
  | 24 => npPi / 180
  | 25 => npPi / 180
  | 26 => npPi / 180
  | 29 => npPi / 180
  | 30 => npPi / 180
  | 32 => 1e12
  | 34 => 1e-6
  | 35 => 1e-9
  | _ => 1

/-- The first scan slot: `batchStart` from the chain, `batchDestination`
scaled in place, and `batchVector = np.linspace(batchStart, batchDestination,
Nsims)`.  Returns `(batchStart, scaled batchDestination, batchVector)`. -/
def mkBatchVector1 (p : Params) : Option (ℚ × ℚ × List ℚ) :=
  (batchStartOf p p.batchIndex).map (fun s =>
    let dest := p.batchDestination * batchScaleOf p.batchIndex
    (s, dest, npLinspace s dest p.Nsims.toNat))

/-- The second `elif` chain's start value (`batchStart2` from `batchIndex2`):
textually duplicated in the source, with the same parameter selections,
including the nonexistent-attribute access at index 16. -/
def batchStartOf2 (p : Params) : ℤ → Option ℚ
  | 0 => some 0
  | 1 => some p.pulseEnergy1
  | 2 => some p.pulseEnergy2
  | 3 => some p.frequency1
  | 4 => some p.frequency2
  | 5 => some p.frequency1
  | 6 => some p.frequency2
  | 7 => some p.cePhase1
  | 8 => some p.cePhase2
  | 9 => some p.delay1
  | 10 => some p.delay2
  | 11 => some p.gdd1
  | 12 => some p.gdd2
  | 13 => some p.tod1
  | 14 => some p.tod2
  | 15 => some p.phaseMaterialThickness1
  | 16 => none
  | 17 => some p.beamwaist1
  | 18 => some p.beamwaist2
  | 19 => some p.x01
  | 20 => some p.x02
  | 21 => some p.z01
  | 22 => some p.z02
  | 23 => some p.propagationAngle1
  | 24 => some p.propagationAngle2
  | 25 => some p.polarizationAngle1
  | 26 => some p.polarizationAngle2
  | 27 => some p.circularity1
  | 28 => some p.circularity2
  | 29 => some p.crystalTheta
  | 30 => some p.crystalPhi
  | 31 => some p.nonlinearAbsorptionStrength
  | 32 => some p.drudeGamma
  | 33 => some p.effectiveMass
  | 34 => some p.crystalThickness
  | 35 => some p.propagationStep
  | 36 => some 0
  | 37 => some 0
  | _ => none

/-- The second chain's unit-scale factor applied to `batchDestination2`. -/
def batchScaleOf2 : ℤ → ℚ
  | 3 => 1e12
  | 4 => 1e12
  | 5 => 1e12
  | 6 => 1e12
  | 7 => npPi
  | 8 => npPi
  | 9 => 1e-15
  | 10 => 1e-15
  | 11 => 1e-30
  | 12 => 1e-30
  | 13 => 1e-45
  | 14 => 1e-45
  | 15 => 1e-6
  | 16 => 1e-6
  | 17 => 1e-6
  | 18 => 1e-6
  | 19 => 1e-6
  | 20 => 1e-6
  | 21 => 1e-6
  | 22 => 1e-6
  | 23 => npPi / 180
  | 24 => npPi / 180
  | 25 => npPi / 180
  | 26 => npPi / 180
  | 29 => npPi / 180
  | 30 => npPi / 180
  | 32 => 1e12
  | 34 => 1e-6
  | 35 => 1e-9
  | _ => 1

/-- The second scan slot: `batchVector2 = np.linspace(batchStart2,
batchDestination2, Nsims2)` after the in-place rescale. -/
def mkBatchVector2 (p : Params) : Option (ℚ × ℚ × List ℚ) :=
  (batchStartOf2 p p.batchIndex2).map (fun s =>
    let dest := p.batchDestination2 * batchScaleOf2 p.batchIndex2
    (s, dest, npLinspace s dest p.Nsims2.toNat))

/-! ### Derived sampling axes -/

/-- The final axis block of the constructor:
`frequencyVector = np.fft.fftfreq(Ntime, d=timeStep)`,
`frequencyVectorSpectrum = frequencyVector[0:Nfreq]` (a numpy view), then
`frequencyVectorSpectrum[-1] *= -1`, which through the view also negates
`frequencyVector[Nfreq-1]`.  Returns the final state
`(frequencyVector, frequencyVectorSpectrum)`. -/
def mkFrequencyVectors (Ntime Nfreq : ℕ) (timeStep : ℚ) : List ℚ × List ℚ :=
  let fv0 := npFftfreq Ntime timeStep
  let fv := fv0.set (Nfreq - 1) (-1 * fv0.getD (Nfreq - 1) 0)
  (fv, fv.take Nfreq)

/-! ### The result entity and `loadSplit` -/

/-- The public state of a loaded result: the scalar parameters, the derived
grid dimensions, the decoded arrays, the scan axes and the derived sampling
axes. -/
structure LWEResult where
  params : Params := {}
  Ntime : ℤ := 0
  Nfreq : ℤ := 0
  fStep : ℚ := 0
  Nspace : ℤ := 0
  Nspace2 : ℤ := 0
  Ngrid : ℤ := 0
  Ext_x : NDArray := ⟨[], []⟩
  Ext_y : NDArray := ⟨[], []⟩
  spectrum_x : NDArray := ⟨[], []⟩
  spectrum_y : NDArray := ⟨[], []⟩
  spectrumTotal : NDArray := ⟨[], []⟩
  batchStart : ℚ := 0
  batchStart2 : ℚ := 0
  batchVector : List ℚ := []
  batchVector2 : List ℚ := []
  timeVector : List ℚ := []
  frequencyVector : List ℚ := []
  frequencyVectorSpectrum : List ℚ := []
  spaceVector : List ℚ := []
deriving DecidableEq

/-- Flat column-major data of shard arrays stacked along a new trailing axis:
slot `i` of the zero-initialized target receives block `i` (assignment into
`[..., i]` writes the i-th contiguous block of the column-major flat data). -/
def stackLastData (sz : ℕ) (blocks : List (List ℚ)) : List ℚ :=
  (blocks.map (fun b => b.take sz ++ List.replicate (sz - b.length) 0)).flatten

/-- Flat column-major data of a 2-D `(n, m)` target whose row `i` (slot of
shard `i`) receives the i-th block: element `(i, f)` sits at flat position
`i + n * f`. -/
def stackRowsData (n m : ℕ) (rows : List (List ℚ)) : List ℚ :=
  (List.range (n * m)).map (fun j => (rows.getD (j % n) []).getD (j / n) 0)

/-- `loadSplit`, given the already-loaded per-shard results (shard 0 is
`base`, the loop loads `rest`): reallocate the five data arrays of `base`
with an added batch dimension of size `Ntotal` and fill slot `i` from shard
`i`; set `batchVector` by appending, for each shard iteration, the value of
the selected attribute — read, as the source does, from `baseStructure` (not
from the shard just loaded); set `batchStart` to the first such value.  All
other fields of `base` are left untouched. -/
def loadSplitModel (base : LWEResult) (rest : List LWEResult)
    (sel : LWEResult → ℚ) (Ntotal : ℕ) : LWEResult :=
  let results := base :: rest
  let szE := base.Ext_x.shape.prod
  let m := base.spectrum_x.shape.getD 0 0
  { base with
    Ext_x := ⟨base.Ext_x.shape ++ [Ntotal],
              stackLastData szE (results.map (fun r => r.Ext_x.data))⟩
    Ext_y := ⟨base.Ext_x.shape ++ [Ntotal],
              stackLastData szE (results.map (fun r => r.Ext_y.data))⟩
    spectrum_x := ⟨[Ntotal, m],
                   stackRowsData Ntotal m (results.map (fun r => r.spectrum_x.data))⟩
    spectrum_y := ⟨[Ntotal, m],
                   stackRowsData Ntotal m (results.map (fun r => r.spectrum_y.data))⟩
    spectrumTotal := ⟨[Ntotal, m],
                      stackRowsData Ntotal m (results.map (fun r => r.spectrumTotal.data))⟩
    batchVector := sel base :: (List.range (Ntotal - 1)).map (fun _ => sel base)
    batchStart := sel base }

/-! ### Shard fusion: `fuseBinaries` and `fuseZips`

File and entry names are modelled as lists of character codes (`List ℕ`),
file contents as byte lists (`List ℕ`).  Python's `sort()` / `sorted()` on
strings is lexicographic on code points; with distinct names stability is
irrelevant, so an insertion sort by a key suffices. -/

/-- Strict lexicographic order on code-point lists (Python string `<`). -/
def lexLt : List ℕ → List ℕ → Bool
  | [], [] => false
  | [], _ :: _ => true
  | _ :: _, [] => false
  | a :: as, b :: bs => a < b || (a == b && lexLt as bs)

/-- Insert into a key-sorted list (ascending by `lexLt` on the key). -/
def insertSorted (key : α → List ℕ) (x : α) : List α → List α
  | [] => [x]
  | y :: ys => if lexLt (key x) (key y) then x :: y :: ys else y :: insertSorted key x ys

/-- Sort ascending by a lexicographic key (models Python `sorted` /
`list.sort` for lists with pairwise distinct keys). -/
def sortByKey (key : α → List ℕ) : List α → List α
  | [] => []
  | x :: xs => insertSorted key x (sortByKey key xs)

/-- `name.startswith(p)`. -/
def startsWithB : List ℕ → List ℕ → Bool
  | _, [] => true
  | [], _ :: _ => false
  | c :: cs, p :: ps => c == p && startsWithB cs ps

/-- `name.endswith(e)`. -/
def endsWithB (s e : List ℕ) : Bool :=
  startsWithB s.reverse e.reverse

/-- A flat file in the working directory: `(name, content)`. -/
abbrev FlatFile := List ℕ × List ℕ

/-- The core of `fuseBinaries.fuseFile`: remove a pre-existing destination
`base ++ ending`, list the directory entries whose name starts with `base`
and ends with `ending`, sort them, and concatenate their raw bytes in sorted
order (the chunked read loop streams each file's bytes verbatim, in order). -/
def fuseFileModel (dir : List FlatFile) (base ending : List ℕ) : List ℕ :=
  let dir2 := dir.filter (fun f => f.1 != base ++ ending)
  let files := dir2.filter (fun f => startsWithB f.1 base && endsWithB f.1 ending)
  ((sortByKey Prod.fst files).map Prod.snd).flatten

/-- The character codes of a string. -/
def codes (s : String) : List ℕ :=
  s.toList.map Char.toNat

/-- `"_Ext.dat"` as character codes. -/
def extSuffix : List ℕ := codes ("_Ext.dat")

/-- `"_spectrum.dat"` as character codes. -/
def specSuffix : List ℕ := codes ("_spectrum.dat")

/-- `".zip"` as character codes. -/
def zipSuffix : List ℕ := codes (".zip")

/-- `fuseBinaries`: fuse the field files and the spectrum files of all shards
whose names extend `base`.  Returns the contents written to
`base ++ "_Ext.dat"` and `base ++ "_spectrum.dat"`. -/
def fuseBinariesModel (dir : List FlatFile) (base : List ℕ) : List ℕ × List ℕ :=
  (fuseFileModel dir base extSuffix, fuseFileModel dir base specSuffix)

/-- A shard archive: the zip file `base ++ ".zip"` containing the entries
`base ++ "_Ext.dat"` and `base ++ "_spectrum.dat"` (the two entries `fuseZips`
reads; `sourceZip.read` of a missing entry would raise `KeyError`). -/
structure ShardZip where
  base : List ℕ
  ext : List ℕ
  spectrum : List ℕ
deriving DecidableEq

/-- `fuseZips`: among the sibling archives, keep those whose name starts with
`baseName` and ends with `".zip"`, excluding the destination
`baseName ++ ".zip"` itself; sort by file name; read each shard's
`_Ext.dat` and `_spectrum.dat` entries in that order, appending them to the
two accumulation buffers; the buffers become the destination's
`baseName ++ "_Ext.dat"` and `baseName ++ "_spectrum.dat"` entries. -/
def fuseZipsModel (zips : List ShardZip) (baseName : List ℕ) : List ℕ × List ℕ :=
  let files := zips.filter (fun z =>
    startsWithB (z.base ++ zipSuffix) baseName &&
    endsWithB (z.base ++ zipSuffix) zipSuffix &&
    (z.base ++ zipSuffix) != baseName ++ zipSuffix)
  let sorted := sortByKey (fun z => z.base ++ zipSuffix) files
  ((sorted.map ShardZip.ext).flatten, (sorted.map ShardZip.spectrum).flatten)

/-- The flat files obtained by extracting every entry of every shard archive
into the working directory (the "corresponding extracted flat shard files"). -/
def extractAll (zips : List ShardZip) : List FlatFile :=
  zips.map (fun z => (z.base ++ extSuffix, z.ext)) ++
  zips.map (fun z => (z.base ++ specSuffix, z.spectrum))

/-! ### Index arithmetic lemmas -/

lemma offsetF_lt : ∀ (shape idx : List ℕ), List.Forall₂ (fun i d => i < d) idx shape →
    offsetF shape idx < shape.prod
  | _, _, List.Forall₂.nil => by simp [offsetF]
  | d :: ds, i :: is, List.Forall₂.cons h hs => by
    have ih := offsetF_lt ds is hs
    simp only [offsetF, List.prod_cons]
    calc i + d * offsetF ds is < d + d * offsetF ds is := by omega
    _ = d * (offsetF ds is + 1) := by ring
    _ ≤ d * ds.prod := Nat.mul_le_mul_left d (by omega)

lemma unoffsetF_offsetF : ∀ (shape idx : List ℕ),
    List.Forall₂ (fun i d => i < d) idx shape →
    unoffsetF shape (offsetF shape idx) = idx
  | _, _, List.Forall₂.nil => rfl
  | d :: ds, i :: is, List.Forall₂.cons h hs => by
    simp only [offsetF, unoffsetF, List.cons.injEq]
    refine ⟨?_, ?_⟩
    · rw [Nat.add_mul_mod_self_left]
      exact Nat.mod_eq_of_lt h
    · rw [Nat.add_mul_div_left _ _ (by omega : 0 < d), Nat.div_eq_of_lt h, Nat.zero_add]
      exact unoffsetF_offsetF ds is hs

lemma getD_mapRange {α : Type} (f : ℕ → α) (n m : ℕ) (d : α) (h : m < n) :
    (((List.range n).map f).getD m d) = f m := by
  rw [List.getD_eq_getElem?_getD, List.getElem?_map, List.getElem?_range h]
  rfl

lemma getD_take (l : List ℚ) (n m : ℕ) (d : ℚ) (h : m < n) :
    (l.take n).getD m d = l.getD m d := by
  rw [List.getD_eq_getElem?_getD, List.getD_eq_getElem?_getD, List.getElem?_take_of_lt h]

/-! ### Element formulas for the decoders -/

lemma reshapeF_eq_some {shape : List ℕ} {buf : List ℚ} (h : buf.length = shape.prod) :
    reshapeF shape buf = some ⟨shape, buf⟩ := by
  simp [reshapeF, h]

lemma reshapeF_none {shape : List ℕ} {buf : List ℚ} (h : buf.length ≠ shape.prod) :
    reshapeF shape buf = none := by
  simp [reshapeF, h]

/-- Master gather lemma: the flat column-major data of a gathered array, read
at the offset of an in-bounds multi-index, is the source element at the mapped
index. -/
lemma gather_data_getD (a : NDArray) (newShape : List ℕ) (f : List ℕ → List ℕ)
    (idx : List ℕ) (hb : List.Forall₂ (fun i d => i < d) idx newShape) :
    (a.gather newShape f).data.getD (offsetF newShape idx) 0 = a.get (f idx) := by
  rw [NDArray.gather]
  rw [getD_mapRange _ _ _ _ (offsetF_lt _ _ hb), unoffsetF_offsetF _ _ hb]

lemma gather_shape (a : NDArray) (newShape : List ℕ) (f : List ℕ → List ℕ) :
    (a.gather newShape f).shape = newShape := rfl

lemma squeeze_data (a : NDArray) : a.squeeze.data = a.data := rfl

lemma squeeze_shape (a : NDArray) :
    a.squeeze.shape = a.shape.filter (fun d => d != 1) := rfl

lemma forall₂_lt_cons {i d : ℕ} {is ds : List ℕ} (h : i < d)
    (hs : List.Forall₂ (fun i d => i < d) is ds) :
    List.Forall₂ (fun i d => i < d) (i :: is) (d :: ds) :=
  List.Forall₂.cons h hs

lemma forall₂_lt_nil : List.Forall₂ (fun (i d : ℕ) => i < d) [] [] :=
  List.Forall₂.nil

/-- Element access into a freshly reshaped buffer. -/
lemma mk_get_eq_getD (shape : List ℕ) (buf : List ℚ) (idx : List ℕ) :
    NDArray.get ⟨shape, buf⟩ idx = buf.getD (offsetF shape idx) 0 := rfl

/-- De-interleaving slice on the `2*Nsims` axis of the planar 4-D field
array: element `(i, j, s, l)` of the slice with parity `c` is buffer element
`i + Ntime*(j + Nspace*((c + 2*s) + 2*Nsims*l))`. -/
lemma sliceAxis_elem_planar (buf : List ℚ) (nt ns N M c : ℕ) (hc : c ≤ 1)
    (i j s l : ℕ) (hi : i < nt) (hj : j < ns) (hs : s < N) (hl : l < M) :
    ((⟨[nt, ns, 2 * N, M], buf⟩ : NDArray).sliceAxis 2 c (2 * N + c) 2).data.getD
        (i + nt * (j + ns * (s + N * l))) 0 =
      buf.getD (i + nt * (j + ns * ((c + 2 * s) + 2 * N * l))) 0 := by
  have h2 : sliceLen c (2 * N + c) 2 (2 * N) = N := by
    unfold sliceLen
    interval_cases c <;> simp <;> omega
  have hshape : (([nt, ns, 2 * N, M] : List ℕ).set 2
      (sliceLen c (2 * N + c) 2 ((([nt, ns, 2 * N, M] : List ℕ)).getD 2 0))) =
      [nt, ns, N, M] := by
    rw [show (([nt, ns, 2 * N, M] : List ℕ)).getD 2 0 = 2 * N from rfl, h2]
    rfl
  have hb : List.Forall₂ (fun i d => i < d) [i, j, s, l] [nt, ns, N, M] :=
    forall₂_lt_cons hi (forall₂_lt_cons hj (forall₂_lt_cons hs
      (forall₂_lt_cons hl forall₂_lt_nil)))
  have hoff : i + nt * (j + ns * (s + N * l)) = offsetF [nt, ns, N, M] [i, j, s, l] := by
    simp [offsetF] <;> ring
  simp only [NDArray.sliceAxis]
  rw [hshape, hoff, gather_data_getD _ _ _ _ hb]
  simp [NDArray.get, offsetF] <;> ring

/-- Planar field decode (`symmetryType ∉ {2,4}`, so `Nspace2 = 1` in a valid
load): decoding succeeds on a long-enough blob, the squeezed shapes keep the
extents that are not 1, and the flat column-major data of `Ext_x` / `Ext_y`
holds the even/odd polarization de-interleave of the column-major blob. -/
lemma decodeField_planar (blob : List ℚ) (sym : ℤ) (nt ns N M : ℕ)
    (hsym : ¬(sym = 2 ∨ sym = 4))
    (hlen : 2 * (nt * ns * 1) * N * M ≤ blob.length) :
    ∃ X Y, decodeField blob sym nt ns 1 N M = Except.ok (X, Y) ∧
      X.shape = [nt, ns, N, M].filter (fun d => d != 1) ∧
      Y.shape = [nt, ns, N, M].filter (fun d => d != 1) ∧
      (∀ i j s l, i < nt → j < ns → s < N → l < M →
        X.data.getD (i + nt * (j + ns * (s + N * l))) 0 =
          blob.getD (i + nt * (j + ns * (2 * s + 2 * N * l))) 0) ∧
      (∀ i j s l, i < nt → j < ns → s < N → l < M →
        Y.data.getD (i + nt * (j + ns * (s + N * l))) 0 =
          blob.getD (i + nt * (j + ns * ((2 * s + 1) + 2 * N * l))) 0) := by
  have hprod : (blob.take (2 * (nt * ns * 1) * N * M)).length =
      ([nt, ns, 2 * N, M] : List ℕ).prod := by
    simp only [List.length_take, List.prod_cons, List.prod_nil]
    rw [Nat.min_eq_left hlen]
    ring
  have hresh := reshapeF_eq_some hprod
  set buf := blob.take (2 * (nt * ns * 1) * N * M) with hbuf
  have htake : ∀ i j k l, i < nt → j < ns → k < 2 * N → l < M →
      buf.getD (i + nt * (j + ns * (k + 2 * N * l))) 0 =
        blob.getD (i + nt * (j + ns * (k + 2 * N * l))) 0 := by
    intro i j k l hi hj hk hl
    have hb : List.Forall₂ (fun i d => i < d) [i, j, k, l] [nt, ns, 2 * N, M] :=
      forall₂_lt_cons hi (forall₂_lt_cons hj (forall₂_lt_cons hk
        (forall₂_lt_cons hl forall₂_lt_nil)))
    have hoff : i + nt * (j + ns * (k + 2 * N * l)) =
        offsetF [nt, ns, 2 * N, M] [i, j, k, l] := by
      simp [offsetF] <;> ring
    rw [hbuf, getD_take]
    rw [hoff]
    calc offsetF [nt, ns, 2 * N, M] [i, j, k, l] < ([nt, ns, 2 * N, M] : List ℕ).prod :=
      offsetF_lt _ _ hb
    _ = 2 * (nt * ns * 1) * N * M := by simp [List.prod_cons]; ring
  have heq : decodeField blob sym nt ns 1 N M =
      Except.ok ((NDArray.sliceAxis ⟨[nt, ns, 2 * N, M], buf⟩ 2 0 (2 * N) 2).squeeze,
                 (NDArray.sliceAxis ⟨[nt, ns, 2 * N, M], buf⟩ 2 1 (2 * N + 1) 2).squeeze) := by
    simp only [decodeField]
    rw [if_neg hsym, hresh]
  refine ⟨_, _, heq, ?_, ?_, ?_, ?_⟩
  · rw [squeeze_shape]
    simp only [NDArray.sliceAxis, gather_shape]
    rw [show (([nt, ns, 2 * N, M] : List ℕ)).getD 2 0 = 2 * N from rfl,
      show sliceLen 0 (2 * N) 2 (2 * N) = N from by unfold sliceLen; omega]
    rfl
  · rw [squeeze_shape]
    simp only [NDArray.sliceAxis, gather_shape]
    rw [show (([nt, ns, 2 * N, M] : List ℕ)).getD 2 0 = 2 * N from rfl,
      show sliceLen 1 (2 * N + 1) 2 (2 * N) = N from by unfold sliceLen; omega]
    rfl
  · intro i j s l hi hj hs hl
    rw [squeeze_data]
    have := sliceAxis_elem_planar buf nt ns N M 0 (by omega) i j s l hi hj hs hl
    rw [show (2 * N + 0) = 2 * N from by ring] at this
    rw [this, show (0 + 2 * s) = 2 * s from by ring]
    exact htake i j (2 * s) l hi hj (by omega) hl
  · intro i j s l hi hj hs hl
    rw [squeeze_data]
    rw [sliceAxis_elem_planar buf nt ns N M 1 (by omega) i j s l hi hj hs hl,
      show (1 + 2 * s) = 2 * s + 1 from by ring]
    exact htake i j (2 * s + 1) l hi hj (by omega) hl

/-- De-interleaving slice on the `2*Nsims` axis of the volumetric 5-D field
array. -/
lemma sliceAxis_elem_vol (buf : List ℚ) (nt ns ns2 N M c : ℕ) (hc : c ≤ 1)
    (i j v s l : ℕ) (hi : i < nt) (hj : j < ns) (hv : v < ns2) (hs : s < N) (hl : l < M) :
    ((⟨[nt, ns, ns2, 2 * N, M], buf⟩ : NDArray).sliceAxis 3 c (2 * N + c) 2).data.getD
        (i + nt * (j + ns * (v + ns2 * (s + N * l)))) 0 =
      buf.getD (i + nt * (j + ns * (v + ns2 * ((c + 2 * s) + 2 * N * l)))) 0 := by
  have h2 : sliceLen c (2 * N + c) 2 (2 * N) = N := by
    unfold sliceLen
    interval_cases c <;> simp <;> omega
  have hshape : (([nt, ns, ns2, 2 * N, M] : List ℕ).set 3
      (sliceLen c (2 * N + c) 2 ((([nt, ns, ns2, 2 * N, M] : List ℕ)).getD 3 0))) =
      [nt, ns, ns2, N, M] := by
    rw [show (([nt, ns, ns2, 2 * N, M] : List ℕ)).getD 3 0 = 2 * N from rfl, h2]
    rfl
  have hb : List.Forall₂ (fun i d => i < d) [i, j, v, s, l] [nt, ns, ns2, N, M] :=
    forall₂_lt_cons hi (forall₂_lt_cons hj (forall₂_lt_cons hv (forall₂_lt_cons hs
      (forall₂_lt_cons hl forall₂_lt_nil))))
  have hoff : i + nt * (j + ns * (v + ns2 * (s + N * l))) =
      offsetF [nt, ns, ns2, N, M] [i, j, v, s, l] := by
    simp [offsetF] <;> ring
  simp only [NDArray.sliceAxis]
  rw [hshape, hoff, gather_data_getD _ _ _ _ hb]
  simp [NDArray.get, offsetF] <;> ring

/-- Volumetric field decode (`symmetryType ∈ {2,4}`). -/
lemma decodeField_vol (blob : List ℚ) (sym : ℤ) (nt ns ns2 N M : ℕ)
    (hsym : sym = 2 ∨ sym = 4)
    (hlen : 2 * (nt * ns * ns2) * N * M ≤ blob.length) :
    ∃ X Y, decodeField blob sym nt ns ns2 N M = Except.ok (X, Y) ∧
      X.shape = [nt, ns, ns2, N, M].filter (fun d => d != 1) ∧
      Y.shape = [nt, ns, ns2, N, M].filter (fun d => d != 1) ∧
      (∀ i j v s l, i < nt → j < ns → v < ns2 → s < N → l < M →
        X.data.getD (i + nt * (j + ns * (v + ns2 * (s + N * l)))) 0 =
          blob.getD (i + nt * (j + ns * (v + ns2 * (2 * s + 2 * N * l)))) 0) ∧
      (∀ i j v s l, i < nt → j < ns → v < ns2 → s < N → l < M →
        Y.data.getD (i + nt * (j + ns * (v + ns2 * (s + N * l)))) 0 =
          blob.getD (i + nt * (j + ns * (v + ns2 * ((2 * s + 1) + 2 * N * l)))) 0) := by
  have hprod : (blob.take (2 * (nt * ns * ns2) * N * M)).length =
      ([nt, ns, ns2, 2 * N, M] : List ℕ).prod := by
    simp only [List.length_take, List.prod_cons, List.prod_nil]
    rw [Nat.min_eq_left hlen]
    ring
  have hresh := reshapeF_eq_some hprod
  set buf := blob.take (2 * (nt * ns * ns2) * N * M) with hbuf
  have htake : ∀ i j v k l, i < nt → j < ns → v < ns2 → k < 2 * N → l < M →
      buf.getD (i + nt * (j + ns * (v + ns2 * (k + 2 * N * l)))) 0 =
        blob.getD (i + nt * (j + ns * (v + ns2 * (k + 2 * N * l)))) 0 := by
    intro i j v k l hi hj hv hk hl
    have hb : List.Forall₂ (fun i d => i < d) [i, j, v, k, l] [nt, ns, ns2, 2 * N, M] :=
      forall₂_lt_cons hi (forall₂_lt_cons hj (forall₂_lt_cons hv (forall₂_lt_cons hk
        (forall₂_lt_cons hl forall₂_lt_nil))))
    have hoff : i + nt * (j + ns * (v + ns2 * (k + 2 * N * l))) =
        offsetF [nt, ns, ns2, 2 * N, M] [i, j, v, k, l] := by
      simp [offsetF] <;> ring
    rw [hbuf, getD_take]
    rw [hoff]
    calc offsetF [nt, ns, ns2, 2 * N, M] [i, j, v, k, l] <
        ([nt, ns, ns2, 2 * N, M] : List ℕ).prod := offsetF_lt _ _ hb
    _ = 2 * (nt * ns * ns2) * N * M := by simp [List.prod_cons] <;> ring
  have heq : decodeField blob sym nt ns ns2 N M =
      Except.ok ((NDArray.sliceAxis ⟨[nt, ns, ns2, 2 * N, M], buf⟩ 3 0 (2 * N) 2).squeeze,
                 (NDArray.sliceAxis ⟨[nt, ns, ns2, 2 * N, M], buf⟩ 3 1 (2 * N + 1) 2).squeeze) := by
    simp only [decodeField]
    rw [if_pos hsym, hresh]
  refine ⟨_, _, heq, ?_, ?_, ?_, ?_⟩
  · rw [squeeze_shape]
    simp only [NDArray.sliceAxis, gather_shape]
    rw [show (([nt, ns, ns2, 2 * N, M] : List ℕ)).getD 3 0 = 2 * N from rfl,
      show sliceLen 0 (2 * N) 2 (2 * N) = N from by unfold sliceLen; omega]
    rfl
  · rw [squeeze_shape]
    simp only [NDArray.sliceAxis, gather_shape]
    rw [show (([nt, ns, ns2, 2 * N, M] : List ℕ)).getD 3 0 = 2 * N from rfl,
      show sliceLen 1 (2 * N + 1) 2 (2 * N) = N from by unfold sliceLen; omega]
    rfl
  · intro i j v s l hi hj hv hs hl
    rw [squeeze_data]
    have := sliceAxis_elem_vol buf nt ns ns2 N M 0 (by omega) i j v s l hi hj hv hs hl
    rw [show (2 * N + 0) = 2 * N from by ring] at this
    rw [this, show (0 + 2 * s) = 2 * s from by ring]
    exact htake i j v (2 * s) l hi hj hv (by omega) hl
  · intro i j v s l hi hj hv hs hl
    rw [squeeze_data]
    rw [sliceAxis_elem_vol buf nt ns ns2 N M 1 (by omega) i j v s l hi hj hv hs hl,
      show (1 + 2 * s) = 2 * s + 1 from by ring]
    exact htake i j v (2 * s + 1) l hi hj hv (by omega) hl

/-- Channel extraction of the `Nsims2 = 1` spectrum: element `(k, f)` of the
batch-major transposed channel `c` is buffer element `f + Nfreq*(c + 3*k)`,
uniformly in the squeeze behaviour for `Nsims = 1` and `Nsims > 1`. -/
lemma spec_chan_elem (buf : List ℚ) (nf N c : ℕ) (hnf : nf ≠ 1)
    (k f : ℕ) (hk : k < N) (hf : f < nf) :
    ((((⟨[nf, 3, N, 1], buf⟩ : NDArray).indexAxis 1 c).squeeze).transposeT).data.getD
        (k + N * f) 0 = buf.getD (f + nf * (c + 3 * k)) 0 := by
  have hnfb : (nf != 1) = true := by simpa using hnf
  have hA : ((⟨[nf, 3, N, 1], buf⟩ : NDArray).indexAxis 1 c) =
      NDArray.gather ⟨[nf, 3, N, 1], buf⟩ [nf, N, 1] (fun idx => insertAt 1 c idx) := by
    rfl
  by_cases hN : N = 1
  · subst hN
    -- squeezed shape is [nf]
    have hsq : (((⟨[nf, 3, 1, 1], buf⟩ : NDArray).indexAxis 1 c).squeeze) =
        ⟨[nf], (((⟨[nf, 3, 1, 1], buf⟩ : NDArray).indexAxis 1 c)).data⟩ := by
      rw [NDArray.squeeze]
      congr 1
      show (([nf, 1, 1] : List ℕ).filter (fun d => d != 1)) = [nf]
      simp [List.filter, hnfb]
    rw [hsq]
    have hk0 : k = 0 := by omega
    subst hk0
    rw [NDArray.transposeT]
    have hb1 : List.Forall₂ (fun i d => i < d) [f] ([nf] : List ℕ).reverse := by
      simp only [List.reverse_singleton]
      exact forall₂_lt_cons hf forall₂_lt_nil
    have hoff1 : 0 + 1 * f = offsetF ([nf] : List ℕ).reverse [f] := by
      simp [offsetF]
    rw [hoff1, gather_data_getD _ _ _ _ hb1]
    show (((⟨[nf, 3, 1, 1], buf⟩ : NDArray).indexAxis 1 c)).data.getD
        (offsetF [nf] [f]) 0 = _
    rw [NDArray.indexAxis]
    have hb2 : List.Forall₂ (fun i d => i < d) [f, 0, 0] ([nf, 1, 1] : List ℕ) :=
      forall₂_lt_cons hf (forall₂_lt_cons (by omega) (forall₂_lt_cons (by omega)
        forall₂_lt_nil))
    have hoff2 : offsetF [nf] [f] = offsetF ([nf, 1, 1] : List ℕ) [f, 0, 0] := by
      simp [offsetF]
    have hsh : (([nf, 3, 1, 1] : List ℕ).eraseIdx 1) = [nf, 1, 1] := rfl
    rw [hsh, hoff2, gather_data_getD _ _ _ _ hb2]
    show buf.getD (offsetF [nf, 3, 1, 1] (insertAt 1 c [f, 0, 0])) 0 = _
    have : insertAt 1 c [f, 0, 0] = [f, c, 0, 0] := rfl
    rw [this]
    congr 1
  · -- squeezed shape is [nf, N]
    have hsq : (((⟨[nf, 3, N, 1], buf⟩ : NDArray).indexAxis 1 c).squeeze) =
        ⟨[nf, N], (((⟨[nf, 3, N, 1], buf⟩ : NDArray).indexAxis 1 c)).data⟩ := by
      rw [NDArray.squeeze]
      congr 1
      show (([nf, N, 1] : List ℕ).filter (fun d => d != 1)) = [nf, N]
      have hNb : (N != 1) = true := by simpa using hN
      simp [List.filter, hnfb, hNb]
    rw [hsq]
    rw [NDArray.transposeT]
    have hb1 : List.Forall₂ (fun i d => i < d) [k, f] ([nf, N] : List ℕ).reverse := by
      simp only [List.reverse_cons, List.reverse_nil]
      exact forall₂_lt_cons hk (forall₂_lt_cons hf forall₂_lt_nil)
    have hoff1 : k + N * f = offsetF ([nf, N] : List ℕ).reverse [k, f] := by
      simp [offsetF]
    rw [hoff1, gather_data_getD _ _ _ _ hb1]
    show (((⟨[nf, 3, N, 1], buf⟩ : NDArray).indexAxis 1 c)).data.getD
        (offsetF [nf, N] ([k, f].reverse)) 0 = _
    rw [NDArray.indexAxis]
    have hb2 : List.Forall₂ (fun i d => i < d) [f, k, 0] ([nf, N, 1] : List ℕ) :=
      forall₂_lt_cons hf (forall₂_lt_cons hk (forall₂_lt_cons (by omega)
        forall₂_lt_nil))
    have hoff2 : offsetF [nf, N] ([k, f].reverse) = offsetF ([nf, N, 1] : List ℕ) [f, k, 0] := by
      simp [offsetF]
    have hsh : (([nf, 3, N, 1] : List ℕ).eraseIdx 1) = [nf, N, 1] := rfl
    rw [hsh, hoff2, gather_data_getD _ _ _ _ hb2]
    show buf.getD (offsetF [nf, 3, N, 1] (insertAt 1 c [f, k, 0])) 0 = _
    have : insertAt 1 c [f, k, 0] = [f, c, k, 0] := rfl
    rw [this]
    congr 1

/-- `Nsims2 = 1` spectrum decode: success on a long-enough blob, with the
batch-major element formulas for the three channels. -/
lemma decodeSpectrum_ok (blob : List ℚ) (nf N : ℕ) (hnf : nf ≠ 1)
    (hlen : 3 * nf * N * 1 ≤ blob.length) :
    ∃ sx sy st, decodeSpectrum blob nf N 1 = Except.ok (sx, sy, st) ∧
      (∀ k f, k < N → f < nf →
        sx.data.getD (k + N * f) 0 = blob.getD (f + nf * (0 + 3 * k)) 0) ∧
      (∀ k f, k < N → f < nf →
        sy.data.getD (k + N * f) 0 = blob.getD (f + nf * (1 + 3 * k)) 0) ∧
      (∀ k f, k < N → f < nf →
        st.data.getD (k + N * f) 0 = blob.getD (f + nf * (2 + 3 * k)) 0) := by
  have hprod : (blob.take (3 * nf * N * 1)).length = ([nf, 3, N, 1] : List ℕ).prod := by
    simp only [List.length_take, List.prod_cons, List.prod_nil]
    rw [Nat.min_eq_left hlen]
    ring
  have hresh := reshapeF_eq_some hprod
  set buf := blob.take (3 * nf * N * 1) with hbuf
  have htake : ∀ c k f, c ≤ 2 → k < N → f < nf →
      buf.getD (f + nf * (c + 3 * k)) 0 = blob.getD (f + nf * (c + 3 * k)) 0 := by
    intro c k f hc hk hf
    have hb : List.Forall₂ (fun i d => i < d) [f, c, k, 0] ([nf, 3, N, 1] : List ℕ) :=
      forall₂_lt_cons hf (forall₂_lt_cons (by omega) (forall₂_lt_cons hk
        (forall₂_lt_cons (by omega) forall₂_lt_nil)))
    have hoff : f + nf * (c + 3 * k) = offsetF ([nf, 3, N, 1] : List ℕ) [f, c, k, 0] := by
      simp [offsetF] <;> ring
    rw [hbuf, getD_take]
    rw [hoff]
    calc offsetF ([nf, 3, N, 1] : List ℕ) [f, c, k, 0] < ([nf, 3, N, 1] : List ℕ).prod :=
      offsetF_lt _ _ hb
    _ = 3 * nf * N * 1 := by simp [List.prod_cons] <;> ring
  have heq : decodeSpectrum blob nf N 1 =
      Except.ok ((((⟨[nf, 3, N, 1], buf⟩ : NDArray).indexAxis 1 0).squeeze).transposeT,
                 (((⟨[nf, 3, N, 1], buf⟩ : NDArray).indexAxis 1 1).squeeze).transposeT,
                 (((⟨[nf, 3, N, 1], buf⟩ : NDArray).indexAxis 1 2).squeeze).transposeT) := by
    simp only [decodeSpectrum]
    rw [hresh]
  refine ⟨_, _, _, heq, ?_, ?_, ?_⟩
  · intro k f hk hf
    rw [spec_chan_elem buf nf N 0 hnf k f hk hf]
    exact htake 0 k f (by omega) hk hf
  · intro k f hk hf
    rw [spec_chan_elem buf nf N 1 hnf k f hk hf]
    exact htake 1 k f (by omega) hk hf
  · intro k f hk hf
    rw [spec_chan_elem buf nf N 2 hnf k f hk hf]
    exact htake 2 k f (by omega) hk hf

/-! ### Claim theorems -/

/-- C2: with positive `timeStep` and `spatialStep`, construction derives
`Ntime = 8·round(timeSpan/(8·timeStep))` (banker's rounding, as `np.round`),
`Nfreq = Ntime/2 + 1`, `fStep = 1/(Ntime·timeStep)`,
`Nspace = 8·round(spatialWidth/(8·spatialStep))`,
`Nspace2 = 8·round(spatialHeight/(8·spatialStep))` when `symmetryType ∈ {2,4}`
and `Nspace2 = 1` otherwise, and `Ngrid = Ntime·Nspace·Nspace2`; consequently
`Ntime` and `Nspace` are multiples of 8, re-derivation is deterministic, and
`timeSpan/timeStep = 100` gives `Ntime = 96`, `Nfreq = 49`. -/
theorem c2_grid_derivation (p : Params) (ht : 0 < p.timeStep) (hs : 0 < p.spatialStep) :
    (deriveGrid p).Ntime = 8 * npRound (p.timeSpan / (8 * p.timeStep)) ∧
    (deriveGrid p).Nfreq = (deriveGrid p).Ntime / 2 + 1 ∧
    (deriveGrid p).fStep = 1 / (((deriveGrid p).Ntime : ℚ) * p.timeStep) ∧
    (deriveGrid p).Nspace = 8 * npRound (p.spatialWidth / (8 * p.spatialStep)) ∧
    ((p.symmetryType = 2 ∨ p.symmetryType = 4) →
      (deriveGrid p).Nspace2 = 8 * npRound (p.spatialHeight / (8 * p.spatialStep))) ∧
    (¬(p.symmetryType = 2 ∨ p.symmetryType = 4) → (deriveGrid p).Nspace2 = 1) ∧
    (deriveGrid p).Ngrid =
      (deriveGrid p).Ntime * (deriveGrid p).Nspace * (deriveGrid p).Nspace2 ∧
    (8 ∣ (deriveGrid p).Ntime) ∧ (8 ∣ (deriveGrid p).Nspace) ∧
    (∀ p' : Params, p' = p → deriveGrid p' = deriveGrid p) ∧
    (p.timeSpan / p.timeStep = 100 →
      (deriveGrid p).Ntime = 96 ∧ (deriveGrid p).Nfreq = 49) := by
  refine ⟨rfl, rfl, rfl, rfl, ?_, ?_, rfl, ⟨_, rfl⟩, ⟨_, rfl⟩, ?_, ?_⟩
  · intro h
    simp only [deriveGrid, if_pos h]
  · intro h
    simp only [deriveGrid, if_neg h]
  · intro p' hp
    rw [hp]
  · intro h100
    have hts : p.timeStep ≠ 0 := ne_of_gt ht
    have hspan : p.timeSpan = 100 * p.timeStep := by
      field_simp at h100
      linarith
    have harg : p.timeSpan / (8 * p.timeStep) = 25 / 2 := by
      rw [hspan]
      field_simp
      ring
    have hnt : (deriveGrid p).Ntime = 96 := by
      show 8 * npRound (p.timeSpan / (8 * p.timeStep)) = 96
      rw [harg]
      norm_num [npRound]
    refine ⟨hnt, ?_⟩
    show (deriveGrid p).Ntime / 2 + 1 = 49
    rw [hnt]
    decide

/-- Success indicator for a modelled Python computation. -/
def isOkE : Except ε α → Bool
  | Except.ok _ => true
  | Except.error _ => false

/-- C2 witness: the theorem applied to the concrete parameter set
`timeSpan = 100, timeStep = 1, spatialWidth = 16, spatialStep = 1`. -/
def c2wParams : Params :=
  { timeSpan := 100, timeStep := 1, spatialWidth := 16, spatialStep := 1 }

theorem c2_grid_derivation_witness :
    (0 : ℚ) < c2wParams.timeStep ∧ (0 : ℚ) < c2wParams.spatialStep ∧
    ((deriveGrid c2wParams).Ntime = 96 ∧ (deriveGrid c2wParams).Nfreq = 49) :=
  ⟨by simp [c2wParams], by simp [c2wParams],
   (c2_grid_derivation c2wParams (by simp [c2wParams]) (by simp [c2wParams])).2.2.2.2.2.2.2.2.2.2
     (by simp [c2wParams])⟩

/-- C4: a field (resp. spectrum) blob holding at least
`2·Ngrid·Nsims·Nsims2` (resp. `3·Nfreq·Nsims·Nsims2`) elements decodes
successfully and the decode reads exactly that prefix (trailing excess is
ignored); a blob even one element shorter fails with `TruncatedBinaryData`
and produces no arrays. -/
theorem c4_truncation (blob blobS : List ℚ) (sym : ℤ) (nt ns ns2 N M nf : ℕ)
    (hplanar : ¬(sym = 2 ∨ sym = 4) → ns2 = 1) :
    (2 * (nt * ns * ns2) * N * M ≤ blob.length →
      isOkE (decodeField blob sym nt ns ns2 N M) = true) ∧
    (blob.length < 2 * (nt * ns * ns2) * N * M →
      decodeField blob sym nt ns ns2 N M = Except.error LoadError.TruncatedBinaryData) ∧
    decodeField blob sym nt ns ns2 N M =
      decodeField (blob.take (2 * (nt * ns * ns2) * N * M)) sym nt ns ns2 N M ∧
    (3 * nf * N * M ≤ blobS.length →
      isOkE (decodeSpectrum blobS nf N M) = true) ∧
    (blobS.length < 3 * nf * N * M →
      decodeSpectrum blobS nf N M = Except.error LoadError.TruncatedBinaryData) ∧
    decodeSpectrum blobS nf N M =
      decodeSpectrum (blobS.take (3 * nf * N * M)) nf N M := by
  refine ⟨?_, ?_, ?_, ?_, ?_, ?_⟩
  · intro hlen
    by_cases hsym : sym = 2 ∨ sym = 4
    · have hprod : (blob.take (2 * (nt * ns * ns2) * N * M)).length =
          ([nt, ns, ns2, 2 * N, M] : List ℕ).prod := by
        simp only [List.length_take, List.prod_cons, List.prod_nil]
        rw [Nat.min_eq_left hlen]
        ring
      simp only [decodeField]
      rw [if_pos hsym, reshapeF_eq_some hprod]
      rfl
    · have h1 := hplanar hsym
      subst h1
      have hprod : (blob.take (2 * (nt * ns * 1) * N * M)).length =
          ([nt, ns, 2 * N, M] : List ℕ).prod := by
        simp only [List.length_take, List.prod_cons, List.prod_nil]
        rw [Nat.min_eq_left hlen]
        ring
      simp only [decodeField]
      rw [if_neg hsym, reshapeF_eq_some hprod]
      rfl
  · intro hlen
    by_cases hsym : sym = 2 ∨ sym = 4
    · have hnone : reshapeF [nt, ns, ns2, 2 * N, M]
          (blob.take (2 * (nt * ns * ns2) * N * M)) = none := by
        apply reshapeF_none
        rw [List.length_take]
        intro hcon
        have hp : ([nt, ns, ns2, 2 * N, M] : List ℕ).prod =
            2 * (nt * ns * ns2) * N * M := by
          simp [List.prod_cons] <;> ring
        rw [hp] at hcon
        have hm := Nat.min_eq_right (le_of_lt hlen)
        omega
      simp only [decodeField]
      rw [if_pos hsym, hnone]
    · have h1 := hplanar hsym
      subst h1
      have hnone : reshapeF [nt, ns, 2 * N, M]
          (blob.take (2 * (nt * ns * 1) * N * M)) = none := by
        apply reshapeF_none
        rw [List.length_take]
        intro hcon
        have hp : ([nt, ns, 2 * N, M] : List ℕ).prod = 2 * (nt * ns * 1) * N * M := by
          simp [List.prod_cons] <;> ring
        rw [hp] at hcon
        have hm := Nat.min_eq_right (le_of_lt hlen)
        omega
      simp only [decodeField]
      rw [if_neg hsym, hnone]
  · simp only [decodeField, List.take_take, Nat.min_self]
  · intro hlen
    have hprod : (blobS.take (3 * nf * N * M)).length =
        ([nf, 3, N, M] : List ℕ).prod := by
      simp only [List.length_take, List.prod_cons, List.prod_nil]
      rw [Nat.min_eq_left hlen]
      ring
    simp only [decodeSpectrum]
    rw [reshapeF_eq_some hprod]
    rfl
  · intro hlen
    have hnone : reshapeF [nf, 3, N, M] (blobS.take (3 * nf * N * M)) = none := by
      apply reshapeF_none
      rw [List.length_take]
      intro hcon
      have hp : ([nf, 3, N, M] : List ℕ).prod = 3 * nf * N * M := by
        simp [List.prod_cons] <;> ring
      rw [hp] at hcon
      have hm := Nat.min_eq_right (le_of_lt hlen)
      omega
    simp only [decodeSpectrum]
    rw [hnone]
  · simp only [decodeSpectrum, List.take_take, Nat.min_self]

def c4wBlob : List ℚ := (List.range 24).map (fun n => (n : ℚ))

def c4wBlobS : List ℚ := (List.range 18).map (fun n => (n : ℚ))

theorem c4_truncation_witness :
    (¬((0 : ℤ) = 2 ∨ (0 : ℤ) = 4) → (1 : ℕ) = 1) ∧
    ((2 * (2 * 3 * 1) * 2 * 1 ≤ c4wBlob.length →
        isOkE (decodeField c4wBlob 0 2 3 1 2 1) = true) ∧
      (c4wBlob.length < 2 * (2 * 3 * 1) * 2 * 1 →
        decodeField c4wBlob 0 2 3 1 2 1 = Except.error LoadError.TruncatedBinaryData) ∧
      decodeField c4wBlob 0 2 3 1 2 1 =
        decodeField (c4wBlob.take (2 * (2 * 3 * 1) * 2 * 1)) 0 2 3 1 2 1 ∧
      (3 * 3 * 2 * 1 ≤ c4wBlobS.length →
        isOkE (decodeSpectrum c4wBlobS 3 2 1) = true) ∧
      (c4wBlobS.length < 3 * 3 * 2 * 1 →
        decodeSpectrum c4wBlobS 3 2 1 = Except.error LoadError.TruncatedBinaryData) ∧
      decodeSpectrum c4wBlobS 3 2 1 =
        decodeSpectrum (c4wBlobS.take (3 * 3 * 2 * 1)) 3 2 1) :=
  ⟨fun _ => rfl, c4_truncation c4wBlob c4wBlobS 0 2 3 1 2 1 3 (fun _ => rfl)⟩

lemma filter_ne_one_cons {a : ℕ} (ha : a ≠ 1) (l : List ℕ) :
    (a :: l).filter (fun d => d != 1) = a :: l.filter (fun d => d != 1) := by
  have hb : (a != 1) = true := by simpa using ha
  simp [List.filter_cons, hb]

/-- C3: the field blob is decoded as column-major doubles reshaped to
`(Ntime, Nspace, 2·Nsims, Nsims2)` (planar) or
`(Ntime, Nspace, Nspace2, 2·Nsims, Nsims2)` (`symmetryType ∈ {2,4}`);
`Ext_x` is the even slices and `Ext_y` the odd slices along the `2·Nsims`
axis; singleton batch extents are dropped but the `Ntime`/`Nspace`
(/`Nspace2`) axes survive; and the archive-entry decode is the same function
as the standalone-file decode. -/
theorem c3_field_decode (blob : List ℚ) (sym : ℤ) (nt ns ns2 N M : ℕ)
    (hnt : nt ≠ 1) (hns : ns ≠ 1) :
    decodeFieldZip = decodeField ∧
    (¬(sym = 2 ∨ sym = 4) → 2 * (nt * ns * 1) * N * M ≤ blob.length →
      ∃ X Y, decodeField blob sym nt ns 1 N M = Except.ok (X, Y) ∧
        X.shape = nt :: ns :: ([N, M].filter (fun d => d != 1)) ∧
        Y.shape = nt :: ns :: ([N, M].filter (fun d => d != 1)) ∧
        (∀ i j s l, i < nt → j < ns → s < N → l < M →
          X.data.getD (i + nt * (j + ns * (s + N * l))) 0 =
            blob.getD (i + nt * (j + ns * (2 * s + 2 * N * l))) 0) ∧
        (∀ i j s l, i < nt → j < ns → s < N → l < M →
          Y.data.getD (i + nt * (j + ns * (s + N * l))) 0 =
            blob.getD (i + nt * (j + ns * ((2 * s + 1) + 2 * N * l))) 0)) ∧
    ((sym = 2 ∨ sym = 4) → ns2 ≠ 1 → 2 * (nt * ns * ns2) * N * M ≤ blob.length →
      ∃ X Y, decodeField blob sym nt ns ns2 N M = Except.ok (X, Y) ∧
        X.shape = nt :: ns :: ns2 :: ([N, M].filter (fun d => d != 1)) ∧
        Y.shape = nt :: ns :: ns2 :: ([N, M].filter (fun d => d != 1)) ∧
        (∀ i j v s l, i < nt → j < ns → v < ns2 → s < N → l < M →
          X.data.getD (i + nt * (j + ns * (v + ns2 * (s + N * l)))) 0 =
            blob.getD (i + nt * (j + ns * (v + ns2 * (2 * s + 2 * N * l)))) 0) ∧
        (∀ i j v s l, i < nt → j < ns → v < ns2 → s < N → l < M →
          Y.data.getD (i + nt * (j + ns * (v + ns2 * (s + N * l)))) 0 =
            blob.getD (i + nt * (j + ns * (v + ns2 * ((2 * s + 1) + 2 * N * l)))) 0)) := by
  refine ⟨rfl, ?_, ?_⟩
  · intro hsym hlen
    obtain ⟨X, Y, heq, hshX, hshY, hX, hY⟩ := decodeField_planar blob sym nt ns N M hsym hlen
    refine ⟨X, Y, heq, ?_, ?_, hX, hY⟩
    · rw [hshX, filter_ne_one_cons hnt, filter_ne_one_cons hns]
    · rw [hshY, filter_ne_one_cons hnt, filter_ne_one_cons hns]
  · intro hsym hns2 hlen
    obtain ⟨X, Y, heq, hshX, hshY, hX, hY⟩ := decodeField_vol blob sym nt ns ns2 N M hsym hlen
    refine ⟨X, Y, heq, ?_, ?_, hX, hY⟩
    · rw [hshX, filter_ne_one_cons hnt, filter_ne_one_cons hns, filter_ne_one_cons hns2]
    · rw [hshY, filter_ne_one_cons hnt, filter_ne_one_cons hns, filter_ne_one_cons hns2]

def c3wBlob : List ℚ := (List.range 24).map (fun n => (n : ℚ))

theorem c3_field_decode_witness :
    ((2 : ℕ) ≠ 1 ∧ (3 : ℕ) ≠ 1) ∧
    (decodeFieldZip = decodeField ∧
      (¬((0 : ℤ) = 2 ∨ (0 : ℤ) = 4) → 2 * (2 * 3 * 1) * 2 * 1 ≤ c3wBlob.length →
        ∃ X Y, decodeField c3wBlob 0 2 3 1 2 1 = Except.ok (X, Y) ∧
          X.shape = 2 :: 3 :: (([2, 1] : List ℕ).filter (fun d => d != 1)) ∧
          Y.shape = 2 :: 3 :: (([2, 1] : List ℕ).filter (fun d => d != 1)) ∧
          (∀ i j s l, i < 2 → j < 3 → s < 2 → l < 1 →
            X.data.getD (i + 2 * (j + 3 * (s + 2 * l))) 0 =
              c3wBlob.getD (i + 2 * (j + 3 * (2 * s + 2 * 2 * l))) 0) ∧
          (∀ i j s l, i < 2 → j < 3 → s < 2 → l < 1 →
            Y.data.getD (i + 2 * (j + 3 * (s + 2 * l))) 0 =
              c3wBlob.getD (i + 2 * (j + 3 * ((2 * s + 1) + 2 * 2 * l))) 0)) ∧
      (((0 : ℤ) = 2 ∨ (0 : ℤ) = 4) → (1 : ℕ) ≠ 1 → 2 * (2 * 3 * 1) * 2 * 1 ≤ c3wBlob.length →
        ∃ X Y, decodeField c3wBlob 0 2 3 1 2 1 = Except.ok (X, Y) ∧
          X.shape = 2 :: 3 :: 1 :: (([2, 1] : List ℕ).filter (fun d => d != 1)) ∧
          Y.shape = 2 :: 3 :: 1 :: (([2, 1] : List ℕ).filter (fun d => d != 1)) ∧
          (∀ i j v s l, i < 2 → j < 3 → v < 1 → s < 2 → l < 1 →
            X.data.getD (i + 2 * (j + 3 * (v + 1 * (s + 2 * l)))) 0 =
              c3wBlob.getD (i + 2 * (j + 3 * (v + 1 * (2 * s + 2 * 2 * l)))) 0) ∧
          (∀ i j v s l, i < 2 → j < 3 → v < 1 → s < 2 → l < 1 →
            Y.data.getD (i + 2 * (j + 3 * (v + 1 * (s + 2 * l)))) 0 =
              c3wBlob.getD (i + 2 * (j + 3 * (v + 1 * ((2 * s + 1) + 2 * 2 * l)))) 0))) :=
  ⟨⟨by decide, by decide⟩, c3_field_decode c3wBlob 0 2 3 1 2 1 (by decide) (by decide)⟩

/-- The contents of the destination binary produced by the streaming
concatenation loop of `fuseBinaries`, at double-element granularity: the
verbatim in-order concatenation of the shard files' contents (the shard list
is given in sorted order, as `files.sort()` produces it). -/
def fuseConcat (shards : List (List ℚ)) : List ℚ := shards.flatten

lemma flatten_getD : ∀ (bs : List (List ℚ)) (L k r : ℕ),
    (∀ i, i < k → (bs.getD i []).length = L) →
    k < bs.length → r < (bs.getD k []).length →
    bs.flatten.getD (k * L + r) 0 = (bs.getD k []).getD r 0 := by
  intro bs
  induction bs with
  | nil =>
    intro L k r _ hk _
    simp at hk
  | cons b rest ih =>
    intro L k r hex hk hr
    cases k with
    | zero =>
      rw [List.flatten_cons, Nat.zero_mul, Nat.zero_add]
      have hrb : r < b.length := hr
      rw [List.getD_eq_getElem?_getD, List.getElem?_append_left hrb,
        ← List.getD_eq_getElem?_getD]
      rfl
    | succ k' =>
      have hb : b.length = L := hex 0 (Nat.succ_pos k')
      rw [List.flatten_cons]
      have hge : b.length ≤ (k' + 1) * L + r := by
        rw [hb]
        calc L ≤ (k' + 1) * L := Nat.le_mul_of_pos_left L (Nat.succ_pos k')
        _ ≤ (k' + 1) * L + r := Nat.le_add_right _ _
      rw [List.getD_eq_getElem?_getD, List.getElem?_append_right hge,
        ← List.getD_eq_getElem?_getD]
      have hidx : (k' + 1) * L + r - b.length = k' * L + r := by
        rw [hb]
        have : (k' + 1) * L = k' * L + L := by ring
        omega
      rw [hidx]
      exact ih L k' r (fun i hi => hex (i + 1) (by omega)) (by simpa using hk) hr

lemma flatten_length_ge : ∀ (bs : List (List ℚ)) (L : ℕ),
    (∀ i, i < bs.length → L ≤ (bs.getD i []).length) →
    bs.length * L ≤ bs.flatten.length := by
  intro bs
  induction bs with
  | nil => intro L _; simp
  | cons b rest ih =>
    intro L hge
    rw [List.flatten_cons, List.length_append, List.length_cons]
    have h0 : L ≤ b.length := hge 0 (Nat.succ_pos _)
    have hr : rest.length * L ≤ rest.flatten.length :=
      ih L (fun i hi => hge (i + 1) (by simpa using Nat.succ_lt_succ hi))
    calc (rest.length + 1) * L = L + rest.length * L := by ring
    _ ≤ b.length + rest.flatten.length := Nat.add_le_add h0 hr

lemma two_idx_lt {i j nt ns : ℕ} (hi : i < nt) (hj : j < ns) : i + nt * j < nt * ns := by
  calc i + nt * j < nt + nt * j := by omega
  _ = nt * (j + 1) := by ring
  _ ≤ nt * ns := Nat.mul_le_mul_left nt (by omega)

lemma three_idx_lt {i j v nt ns ns2 : ℕ} (hi : i < nt) (hj : j < ns) (hv : v < ns2) :
    i + nt * (j + ns * v) < nt * ns * ns2 := by
  have h1 : j + ns * v < ns * ns2 := two_idx_lt hj hv
  calc i + nt * (j + ns * v) < nt + nt * (j + ns * v) := by omega
  _ = nt * ((j + ns * v) + 1) := by ring
  _ ≤ nt * (ns * ns2) := Nat.mul_le_mul_left nt (by omega)
  _ = nt * ns * ns2 := by ring

/-- C1 (amended): for `Ntot` shard resources sharing the grid dimensions, in
which every shard except possibly the last holds exactly the single-shard
element count (`2·Ngrid` field, `3·Nfreq` spectrum) and the last holds at
least that many, concatenating in shard order and decoding with
`Nsims = Ntot` reproduces, slice by slice, the individual shard decodes —
for the field in both the planar and the volumetric layout, and for the
three spectrum channels. -/
theorem c1_fuse_roundtrip (shards shardsS : List (List ℚ)) (sym : ℤ)
    (nt ns ns2 nf Ntot : ℕ)
    (hlenF : shards.length = Ntot)
    (hlenS : shardsS.length = Ntot)
    (hexF : ∀ i, i + 1 < Ntot → (shards.getD i []).length = 2 * (nt * ns * ns2))
    (hgeF : ∀ i, i < Ntot → 2 * (nt * ns * ns2) ≤ (shards.getD i []).length)
    (hexS : ∀ i, i + 1 < Ntot → (shardsS.getD i []).length = 3 * nf)
    (hgeS : ∀ i, i < Ntot → 3 * nf ≤ (shardsS.getD i []).length)
    (hnf : nf ≠ 1) :
    (¬(sym = 2 ∨ sym = 4) → ns2 = 1 →
      ∃ X Y, decodeField (fuseConcat shards) sym nt ns 1 Ntot 1 = Except.ok (X, Y) ∧
        ∀ k, k < Ntot → ∃ xk yk,
          decodeField (shards.getD k []) sym nt ns 1 1 1 = Except.ok (xk, yk) ∧
          (∀ i j, i < nt → j < ns →
            X.data.getD (i + nt * (j + ns * k)) 0 = xk.data.getD (i + nt * j) 0) ∧
          (∀ i j, i < nt → j < ns →
            Y.data.getD (i + nt * (j + ns * k)) 0 = yk.data.getD (i + nt * j) 0)) ∧
    ((sym = 2 ∨ sym = 4) →
      ∃ X Y, decodeField (fuseConcat shards) sym nt ns ns2 Ntot 1 = Except.ok (X, Y) ∧
        ∀ k, k < Ntot → ∃ xk yk,
          decodeField (shards.getD k []) sym nt ns ns2 1 1 = Except.ok (xk, yk) ∧
          (∀ i j v, i < nt → j < ns → v < ns2 →
            X.data.getD (i + nt * (j + ns * (v + ns2 * k))) 0 =
              xk.data.getD (i + nt * (j + ns * v)) 0) ∧
          (∀ i j v, i < nt → j < ns → v < ns2 →
            Y.data.getD (i + nt * (j + ns * (v + ns2 * k))) 0 =
              yk.data.getD (i + nt * (j + ns * v)) 0)) ∧
    (∃ sx sy st, decodeSpectrum (fuseConcat shardsS) nf Ntot 1 = Except.ok (sx, sy, st) ∧
      ∀ k, k < Ntot → ∃ sxk syk stk,
        decodeSpectrum (shardsS.getD k []) nf 1 1 = Except.ok (sxk, syk, stk) ∧
        (∀ f, f < nf → sx.data.getD (k + Ntot * f) 0 = sxk.data.getD f 0) ∧
        (∀ f, f < nf → sy.data.getD (k + Ntot * f) 0 = syk.data.getD f 0) ∧
        (∀ f, f < nf → st.data.getD (k + Ntot * f) 0 = stk.data.getD f 0)) := by
  have hexF' : ∀ k, k < Ntot → ∀ i, i < k → (shards.getD i []).length = 2 * (nt * ns * ns2) :=
    fun k hk i hi => hexF i (by omega)
  have hexS' : ∀ k, k < Ntot → ∀ i, i < k → (shardsS.getD i []).length = 3 * nf :=
    fun k hk i hi => hexS i (by omega)
  have hflenF : Ntot * (2 * (nt * ns * ns2)) ≤ (fuseConcat shards).length := by
    rw [fuseConcat, ← hlenF]
    exact flatten_length_ge shards _ (fun i hi => hgeF i (by omega))
  have hflenS : Ntot * (3 * nf) ≤ (fuseConcat shardsS).length := by
    rw [fuseConcat, ← hlenS]
    exact flatten_length_ge shardsS _ (fun i hi => hgeS i (by omega))
  refine ⟨?_, ?_, ?_⟩
  · -- planar field
    intro hsym hns2
    subst hns2
    have hreq : 2 * (nt * ns * 1) * Ntot * 1 ≤ (fuseConcat shards).length := by
      calc 2 * (nt * ns * 1) * Ntot * 1 = Ntot * (2 * (nt * ns * 1)) := by ring
      _ ≤ _ := hflenF
    obtain ⟨X, Y, heq, _, _, hXel, hYel⟩ :=
      decodeField_planar (fuseConcat shards) sym nt ns Ntot 1 hsym hreq
    refine ⟨X, Y, heq, ?_⟩
    intro k hk
    have hklen : k < shards.length := by omega
    have hreqk : 2 * (nt * ns * 1) * 1 * 1 ≤ (shards.getD k []).length := by
      calc 2 * (nt * ns * 1) * 1 * 1 = 2 * (nt * ns * 1) := by ring
      _ ≤ _ := hgeF k hk
    obtain ⟨xk, yk, heqk, _, _, hxel, hyel⟩ :=
      decodeField_planar (shards.getD k []) sym nt ns 1 1 hsym hreqk
    refine ⟨xk, yk, heqk, ?_, ?_⟩
    · intro i j hi hj
      have h2 := two_idx_lt hi hj
      have h4 : nt * ns * 1 = nt * ns := by ring
      have hb1 : i + nt * j < (shards.getD k []).length := by
        have h3 := hgeF k hk
        omega
      have e2 : i + nt * (j + ns * (2 * k + 2 * Ntot * 0)) =
          k * (2 * (nt * ns * 1)) + (i + nt * j) := by ring
      have hx := hxel i j 0 0 hi hj (by omega) (by omega)
      rw [show (i + nt * (j + ns * (0 + 1 * 0))) = i + nt * j from by ring] at hx
      calc X.data.getD (i + nt * (j + ns * k)) 0
          = (fuseConcat shards).getD (i + nt * (j + ns * (2 * k + 2 * Ntot * 0))) 0 :=
            hXel i j k 0 hi hj hk (by omega)
        _ = (fuseConcat shards).getD (k * (2 * (nt * ns * 1)) + (i + nt * j)) 0 := by
            rw [e2]
        _ = (shards.getD k []).getD (i + nt * j) 0 := by
            rw [fuseConcat]
            exact flatten_getD shards _ k _ (hexF' k hk) hklen hb1
        _ = xk.data.getD (i + nt * j) 0 := hx.symm
    · intro i j hi hj
      have h2 := two_idx_lt hi hj
      have h4 : nt * ns * 1 = nt * ns := by ring
      have e5 : i + nt * (j + ns * 1) = (i + nt * j) + nt * ns := by ring
      have hb1 : i + nt * (j + ns * 1) < (shards.getD k []).length := by
        have h3 := hgeF k hk
        omega
      have e2 : i + nt * (j + ns * ((2 * k + 1) + 2 * Ntot * 0)) =
          k * (2 * (nt * ns * 1)) + (i + nt * (j + ns * 1)) := by ring
      have hy := hyel i j 0 0 hi hj (by omega) (by omega)
      rw [show (i + nt * (j + ns * (0 + 1 * 0))) = i + nt * j from by ring] at hy
      calc Y.data.getD (i + nt * (j + ns * k)) 0
          = (fuseConcat shards).getD (i + nt * (j + ns * ((2 * k + 1) + 2 * Ntot * 0))) 0 :=
            hYel i j k 0 hi hj hk (by omega)
        _ = (fuseConcat shards).getD (k * (2 * (nt * ns * 1)) + (i + nt * (j + ns * 1))) 0 := by
            rw [e2]
        _ = (shards.getD k []).getD (i + nt * (j + ns * 1)) 0 := by
            rw [fuseConcat]
            exact flatten_getD shards _ k _ (hexF' k hk) hklen hb1
        _ = yk.data.getD (i + nt * j) 0 := hy.symm
  · -- volumetric field
    intro hsym
    have hreq : 2 * (nt * ns * ns2) * Ntot * 1 ≤ (fuseConcat shards).length := by
      calc 2 * (nt * ns * ns2) * Ntot * 1 = Ntot * (2 * (nt * ns * ns2)) := by ring
      _ ≤ _ := hflenF
    obtain ⟨X, Y, heq, _, _, hXel, hYel⟩ :=
      decodeField_vol (fuseConcat shards) sym nt ns ns2 Ntot 1 hsym hreq
    refine ⟨X, Y, heq, ?_⟩
    intro k hk
    have hklen : k < shards.length := by omega
    have hreqk : 2 * (nt * ns * ns2) * 1 * 1 ≤ (shards.getD k []).length := by
      calc 2 * (nt * ns * ns2) * 1 * 1 = 2 * (nt * ns * ns2) := by ring
      _ ≤ _ := hgeF k hk
    obtain ⟨xk, yk, heqk, _, _, hxel, hyel⟩ :=
      decodeField_vol (shards.getD k []) sym nt ns ns2 1 1 hsym hreqk
    refine ⟨xk, yk, heqk, ?_, ?_⟩
    · intro i j v hi hj hv
      have h2 := three_idx_lt hi hj hv
      have hb1 : i + nt * (j + ns * v) < (shards.getD k []).length := by
        have h3 := hgeF k hk
        omega
      have e2 : i + nt * (j + ns * (v + ns2 * (2 * k + 2 * Ntot * 0))) =
          k * (2 * (nt * ns * ns2)) + (i + nt * (j + ns * v)) := by ring
      have hx := (hxel i j v 0 0 hi hj hv (by omega) (by omega)).symm
      calc X.data.getD (i + nt * (j + ns * (v + ns2 * k))) 0
          = (fuseConcat shards).getD
              (i + nt * (j + ns * (v + ns2 * (2 * k + 2 * Ntot * 0)))) 0 :=
            hXel i j v k 0 hi hj hv hk (by omega)
        _ = (fuseConcat shards).getD
              (k * (2 * (nt * ns * ns2)) + (i + nt * (j + ns * v))) 0 := by
            rw [e2]
        _ = (shards.getD k []).getD (i + nt * (j + ns * v)) 0 := by
            rw [fuseConcat]
            exact flatten_getD shards _ k _ (hexF' k hk) hklen hb1
        _ = xk.data.getD (i + nt * (j + ns * v)) 0 := by
            convert hx using 2 <;> ring
    · intro i j v hi hj hv
      have h2 := three_idx_lt hi hj hv
      have e5 : i + nt * (j + ns * (v + ns2 * 1)) =
          (i + nt * (j + ns * v)) + nt * ns * ns2 := by ring
      have hb1 : i + nt * (j + ns * (v + ns2 * 1)) < (shards.getD k []).length := by
        have h3 := hgeF k hk
        omega
      have e2 : i + nt * (j + ns * (v + ns2 * ((2 * k + 1) + 2 * Ntot * 0))) =
          k * (2 * (nt * ns * ns2)) + (i + nt * (j + ns * (v + ns2 * 1))) := by ring
      have hy := (hyel i j v 0 0 hi hj hv (by omega) (by omega)).symm
      calc Y.data.getD (i + nt * (j + ns * (v + ns2 * k))) 0
          = (fuseConcat shards).getD
              (i + nt * (j + ns * (v + ns2 * ((2 * k + 1) + 2 * Ntot * 0)))) 0 :=
            hYel i j v k 0 hi hj hv hk (by omega)
        _ = (fuseConcat shards).getD
              (k * (2 * (nt * ns * ns2)) + (i + nt * (j + ns * (v + ns2 * 1)))) 0 := by
            rw [e2]
        _ = (shards.getD k []).getD (i + nt * (j + ns * (v + ns2 * 1))) 0 := by
            rw [fuseConcat]
            exact flatten_getD shards _ k _ (hexF' k hk) hklen hb1
        _ = yk.data.getD (i + nt * (j + ns * v)) 0 := by
            convert hy using 2 <;> ring
  · -- spectrum
    have hreq : 3 * nf * Ntot * 1 ≤ (fuseConcat shardsS).length := by
      calc 3 * nf * Ntot * 1 = Ntot * (3 * nf) := by ring
      _ ≤ _ := hflenS
    obtain ⟨sx, sy, st, heq, hxel, hyel, htel⟩ :=
      decodeSpectrum_ok (fuseConcat shardsS) nf Ntot hnf hreq
    refine ⟨sx, sy, st, heq, ?_⟩
    intro k hk
    have hklen : k < shardsS.length := by omega
    have hreqk : 3 * nf * 1 * 1 ≤ (shardsS.getD k []).length := by
      calc 3 * nf * 1 * 1 = 3 * nf := by ring
      _ ≤ _ := hgeS k hk
    obtain ⟨sxk, syk, stk, heqk, hxelk, hyelk, htelk⟩ :=
      decodeSpectrum_ok (shardsS.getD k []) nf 1 hnf hreqk
    refine ⟨sxk, syk, stk, heqk, ?_, ?_, ?_⟩
    · intro f hf
      have hb1 : f < (shardsS.getD k []).length := by
        have h3 := hgeS k hk
        omega
      have e2 : f + nf * (0 + 3 * k) = k * (3 * nf) + f := by ring
      have hxk := (hxelk 0 f (by omega) hf).symm
      calc sx.data.getD (k + Ntot * f) 0
          = (fuseConcat shardsS).getD (f + nf * (0 + 3 * k)) 0 := hxel k f hk hf
        _ = (fuseConcat shardsS).getD (k * (3 * nf) + f) 0 := by rw [e2]
        _ = (shardsS.getD k []).getD f 0 := by
            rw [fuseConcat]
            exact flatten_getD shardsS _ k _ (hexS' k hk) hklen hb1
        _ = sxk.data.getD f 0 := by
            convert hxk using 2 <;> ring
    · intro f hf
      have hb1 : f + nf < (shardsS.getD k []).length := by
        have h3 := hgeS k hk
        omega
      have e2 : f + nf * (1 + 3 * k) = k * (3 * nf) + (f + nf) := by ring
      have hyk := (hyelk 0 f (by omega) hf).symm
      calc sy.data.getD (k + Ntot * f) 0
          = (fuseConcat shardsS).getD (f + nf * (1 + 3 * k)) 0 := hyel k f hk hf
        _ = (fuseConcat shardsS).getD (k * (3 * nf) + (f + nf)) 0 := by rw [e2]
        _ = (shardsS.getD k []).getD (f + nf) 0 := by
            rw [fuseConcat]
            exact flatten_getD shardsS _ k _ (hexS' k hk) hklen hb1
        _ = syk.data.getD f 0 := by
            convert hyk using 2 <;> ring
    · intro f hf
      have hb1 : f + nf * 2 < (shardsS.getD k []).length := by
        have h3 := hgeS k hk
        omega
      have e2 : f + nf * (2 + 3 * k) = k * (3 * nf) + (f + nf * 2) := by ring
      have htk := (htelk 0 f (by omega) hf).symm
      calc st.data.getD (k + Ntot * f) 0
          = (fuseConcat shardsS).getD (f + nf * (2 + 3 * k)) 0 := htel k f hk hf
        _ = (fuseConcat shardsS).getD (k * (3 * nf) + (f + nf * 2)) 0 := by rw [e2]
        _ = (shardsS.getD k []).getD (f + nf * 2) 0 := by
            rw [fuseConcat]
            exact flatten_getD shardsS _ k _ (hexS' k hk) hklen hb1
        _ = stk.data.getD f 0 := by
            convert htk using 2 <;> ring

def c1wA : List ℚ := (List.range 8).map (fun n => (n : ℚ))

def c1wB : List ℚ := (List.range 8).map (fun n => (n + 100 : ℚ))

def c1wSA : List ℚ := (List.range 6).map (fun n => (n : ℚ))

def c1wSB : List ℚ := (List.range 6).map (fun n => (n + 100 : ℚ))

theorem c1_fuse_roundtrip_witness :
    (([c1wA, c1wB] : List (List ℚ)).length = 2 ∧
     ([c1wSA, c1wSB] : List (List ℚ)).length = 2 ∧
     (∀ i, i + 1 < 2 → (([c1wA, c1wB] : List (List ℚ)).getD i []).length = 2 * (2 * 2 * 1)) ∧
     (∀ i, i < 2 → 2 * (2 * 2 * 1) ≤ (([c1wA, c1wB] : List (List ℚ)).getD i []).length) ∧
     (∀ i, i + 1 < 2 → (([c1wSA, c1wSB] : List (List ℚ)).getD i []).length = 3 * 2) ∧
     (∀ i, i < 2 → 3 * 2 ≤ (([c1wSA, c1wSB] : List (List ℚ)).getD i []).length) ∧
     (2 : ℕ) ≠ 1) ∧
    ((¬((0 : ℤ) = 2 ∨ (0 : ℤ) = 4) → (1 : ℕ) = 1 →
      ∃ X Y, decodeField (fuseConcat [c1wA, c1wB]) 0 2 2 1 2 1 = Except.ok (X, Y) ∧
        ∀ k, k < 2 → ∃ xk yk,
          decodeField (([c1wA, c1wB] : List (List ℚ)).getD k []) 0 2 2 1 1 1 =
            Except.ok (xk, yk) ∧
          (∀ i j, i < 2 → j < 2 →
            X.data.getD (i + 2 * (j + 2 * k)) 0 = xk.data.getD (i + 2 * j) 0) ∧
          (∀ i j, i < 2 → j < 2 →
            Y.data.getD (i + 2 * (j + 2 * k)) 0 = yk.data.getD (i + 2 * j) 0)) ∧
    (((0 : ℤ) = 2 ∨ (0 : ℤ) = 4) →
      ∃ X Y, decodeField (fuseConcat [c1wA, c1wB]) 0 2 2 1 2 1 = Except.ok (X, Y) ∧
        ∀ k, k < 2 → ∃ xk yk,
          decodeField (([c1wA, c1wB] : List (List ℚ)).getD k []) 0 2 2 1 1 1 =
            Except.ok (xk, yk) ∧
          (∀ i j v, i < 2 → j < 2 → v < 1 →
            X.data.getD (i + 2 * (j + 2 * (v + 1 * k))) 0 =
              xk.data.getD (i + 2 * (j + 2 * v)) 0) ∧
          (∀ i j v, i < 2 → j < 2 → v < 1 →
            Y.data.getD (i + 2 * (j + 2 * (v + 1 * k))) 0 =
              yk.data.getD (i + 2 * (j + 2 * v)) 0)) ∧
    (∃ sx sy st, decodeSpectrum (fuseConcat [c1wSA, c1wSB]) 2 2 1 = Except.ok (sx, sy, st) ∧
      ∀ k, k < 2 → ∃ sxk syk stk,
        decodeSpectrum (([c1wSA, c1wSB] : List (List ℚ)).getD k []) 2 1 1 =
          Except.ok (sxk, syk, stk) ∧
        (∀ f, f < 2 → sx.data.getD (k + 2 * f) 0 = sxk.data.getD f 0) ∧
        (∀ f, f < 2 → sy.data.getD (k + 2 * f) 0 = syk.data.getD f 0) ∧
        (∀ f, f < 2 → st.data.getD (k + 2 * f) 0 = stk.data.getD f 0))) :=
  ⟨⟨rfl, rfl,
    by intro i hi; obtain rfl : i = 0 := Nat.lt_one_iff.mp (Nat.succ_lt_succ_iff.mp hi); rfl,
    by intro i hi; interval_cases i <;> decide,
    by intro i hi; obtain rfl : i = 0 := Nat.lt_one_iff.mp (Nat.succ_lt_succ_iff.mp hi); rfl,
    by intro i hi; interval_cases i <;> decide,
    by decide⟩,
   c1_fuse_roundtrip [c1wA, c1wB] [c1wSA, c1wSB] 0 2 2 1 2 2
     rfl rfl
     (by intro i hi; obtain rfl : i = 0 := Nat.lt_one_iff.mp (Nat.succ_lt_succ_iff.mp hi); rfl)
     (by intro i hi; interval_cases i <;> decide)
     (by intro i hi; obtain rfl : i = 0 := Nat.lt_one_iff.mp (Nat.succ_lt_succ_iff.mp hi); rfl)
     (by intro i hi; interval_cases i <;> decide)
     (by decide)⟩

/-- C1 counterexample data: two shards with the derived grid
`Ntime = Nspace = 8`, `Nspace2 = 1` (so `2·Ngrid = 128` elements per shard);
shard 0 is decodable but carries one extra trailing element. -/
def c1cShard0 : List ℚ := List.replicate 128 0 ++ [5]

def c1cShard1 : List ℚ := List.replicate 128 7

def c1cParams : Params :=
  { timeSpan := 8, timeStep := 1, spatialWidth := 8, spatialStep := 1 }

set_option maxRecDepth 8000 in
/-- C1 counterexample: with shard 0 decodable (`Nsims = 1`) but one element
longer than `2·Ngrid`, concatenation followed by an `Nsims = 2` decode puts
shard 0's excess element where slice 1 begins: the fused `Ext_x` at batch
index 1, position `(0,0)`, is 5, whereas decoding shard 1 alone gives 7
there. -/
theorem c1_counterexample :
    deriveGrid c1cParams =
      { Ntime := 8, Nfreq := 5, fStep := 1/8, Nspace := 8, Nspace2 := 1, Ngrid := 64 } ∧
    isOkE (decodeField c1cShard0 0 8 8 1 1 1) = true ∧
    isOkE (decodeField c1cShard1 0 8 8 1 1 1) = true ∧
    (decodeField (fuseConcat [c1cShard0, c1cShard1]) 0 8 8 1 2 1).toOption.map
        (fun pr => pr.1.data.getD (0 + 8 * (0 + 8 * 1)) 0) = some 5 ∧
    (decodeField c1cShard1 0 8 8 1 1 1).toOption.map
        (fun pr => pr.1.data.getD (0 + 8 * (0 + 8 * 0)) 0) = some 7 ∧
    (5 : ℚ) ≠ 7 := by
  refine ⟨by with_unfolding_all decide, by decide, by decide, by decide, by decide, by decide⟩

lemma npLinspace_length (a b : ℚ) (n : ℕ) : (npLinspace a b n).length = n := by
  unfold npLinspace
  split
  · simp [*]
  · simp

lemma npLinspace_getD (a b : ℚ) (n k : ℕ) (h2 : 2 ≤ n) (hk : k < n) :
    (npLinspace a b n).getD k 0 = a + k * (b - a) / ((n : ℚ) - 1) := by
  unfold npLinspace
  rw [if_neg (by omega)]
  exact getD_mapRange _ _ _ _ hk

lemma npLinspace_one (a b : ℚ) : npLinspace a b 1 = [a] := by
  unfold npLinspace
  simp

lemma batchStartOf_isSome (p : Params) (idx : ℤ) (h0 : 0 ≤ idx) (h37 : idx ≤ 37)
    (h16 : idx ≠ 16) : ∃ s, batchStartOf p idx = some s := by
  interval_cases idx <;> first
    | exact ⟨_, rfl⟩
    | exact absurd rfl h16

lemma batchStartOf2_isSome (p : Params) (idx : ℤ) (h0 : 0 ≤ idx) (h37 : idx ≤ 37)
    (h16 : idx ≠ 16) : ∃ s, batchStartOf2 p idx = some s := by
  interval_cases idx <;> first
    | exact ⟨_, rfl⟩
    | exact absurd rfl h16

/-- C5: for each scan slot, for `batchIndex` in 0–37 *other than 16*, the
chain yields `batchStart` (0 at indices 0, 36, 37; `delay1` with scale
`1e-15` at index 9), scales `batchDestination` in place, and
`batchVector = np.linspace(batchStart, scaledDestination, Nsims)` satisfies
the linear-spacing formula (`[batchStart]` when `Nsims = 1`).  At
`batchIndex = 16`, however, the branch reads the nonexistent attribute
`phaseMaterialThickness2` (the schema binds `phaseMaterialthickness2`), so
the load raises `AttributeError` and no batch vector is produced. -/
theorem c5_batch_axis (p : Params) (N : ℕ) (hN : p.Nsims.toNat = N)
    (h0 : 0 ≤ p.batchIndex) (h37 : p.batchIndex ≤ 37) :
    (p.batchIndex = 16 → mkBatchVector1 p = none ∧ batchStartOf p 16 = none) ∧
    (p.batchIndex ≠ 16 →
      ∃ s v, batchStartOf p p.batchIndex = some s ∧
        mkBatchVector1 p = some (s, p.batchDestination * batchScaleOf p.batchIndex, v) ∧
        v.length = N ∧
        (2 ≤ N → ∀ k, k < N →
          v.getD k 0 =
            s + k * (p.batchDestination * batchScaleOf p.batchIndex - s) / ((N : ℚ) - 1)) ∧
        (N = 1 → v = [s])) ∧
    ((p.batchIndex = 0 ∨ p.batchIndex = 36 ∨ p.batchIndex = 37) →
      batchStartOf p p.batchIndex = some 0) ∧
    (p.batchIndex = 9 →
      batchStartOf p p.batchIndex = some p.delay1 ∧ batchScaleOf p.batchIndex = 1e-15) ∧
    (p.batchIndex2 = 16 → mkBatchVector2 p = none ∧ batchStartOf2 p 16 = none) ∧
    (0 ≤ p.batchIndex2 → p.batchIndex2 ≤ 37 → p.batchIndex2 ≠ 16 →
      ∃ s2 v2, batchStartOf2 p p.batchIndex2 = some s2 ∧
        mkBatchVector2 p =
          some (s2, p.batchDestination2 * batchScaleOf2 p.batchIndex2, v2) ∧
        v2.length = p.Nsims2.toNat ∧
        (2 ≤ p.Nsims2.toNat → ∀ k, k < p.Nsims2.toNat →
          v2.getD k 0 = s2 + k * (p.batchDestination2 * batchScaleOf2 p.batchIndex2 - s2) /
            ((p.Nsims2.toNat : ℚ) - 1)) ∧
        (p.Nsims2.toNat = 1 → v2 = [s2])) := by
  refine ⟨?_, ?_, ?_, ?_, ?_, ?_⟩
  · intro h16
    rw [mkBatchVector1, h16]
    exact ⟨rfl, rfl⟩
  · intro h16
    obtain ⟨s, hs⟩ := batchStartOf_isSome p p.batchIndex h0 h37 h16
    refine ⟨s, npLinspace s (p.batchDestination * batchScaleOf p.batchIndex) N, hs, ?_, ?_, ?_, ?_⟩
    · rw [mkBatchVector1, hs, ← hN]
      rfl
    · exact npLinspace_length _ _ _
    · intro h2 k hk
      exact npLinspace_getD _ _ _ _ h2 hk
    · intro h1
      rw [h1]
      exact npLinspace_one _ _
  · intro hcase
    rcases hcase with h | h | h <;> rw [h] <;> rfl
  · intro h9
    rw [h9]
    exact ⟨rfl, rfl⟩
  · intro h16
    rw [mkBatchVector2, h16]
    exact ⟨rfl, rfl⟩
  · intro h0' h37' h16'
    obtain ⟨s2, hs2⟩ := batchStartOf2_isSome p p.batchIndex2 h0' h37' h16'
    refine ⟨s2, npLinspace s2 (p.batchDestination2 * batchScaleOf2 p.batchIndex2)
      p.Nsims2.toNat, hs2, ?_, ?_, ?_, ?_⟩
    · rw [mkBatchVector2, hs2]
      rfl
    · exact npLinspace_length _ _ _
    · intro h2 k hk
      exact npLinspace_getD _ _ _ _ h2 hk
    · intro h1
      rw [h1]
      exact npLinspace_one _ _

def c5wParams : Params :=
  { delay1 := 5, batchIndex := 9, batchDestination := 10, Nsims := 3, Nsims2 := 1 }

theorem c5_batch_axis_witness :
    (c5wParams.Nsims.toNat = 3 ∧ (0 : ℤ) ≤ c5wParams.batchIndex ∧
      c5wParams.batchIndex ≤ 37) ∧
    ((c5wParams.batchIndex = 16 →
        mkBatchVector1 c5wParams = none ∧ batchStartOf c5wParams 16 = none) ∧
    (c5wParams.batchIndex ≠ 16 →
      ∃ s v, batchStartOf c5wParams c5wParams.batchIndex = some s ∧
        mkBatchVector1 c5wParams =
          some (s, c5wParams.batchDestination * batchScaleOf c5wParams.batchIndex, v) ∧
        v.length = 3 ∧
        (2 ≤ 3 → ∀ k, k < 3 →
          v.getD k 0 = s + (k : ℚ) *
            (c5wParams.batchDestination * batchScaleOf c5wParams.batchIndex - s) /
            ((3 : ℚ) - 1)) ∧
        ((3 : ℕ) = 1 → v = [s])) ∧
    ((c5wParams.batchIndex = 0 ∨ c5wParams.batchIndex = 36 ∨ c5wParams.batchIndex = 37) →
      batchStartOf c5wParams c5wParams.batchIndex = some 0) ∧
    (c5wParams.batchIndex = 9 →
      batchStartOf c5wParams c5wParams.batchIndex = some c5wParams.delay1 ∧
      batchScaleOf c5wParams.batchIndex = 1e-15) ∧
    (c5wParams.batchIndex2 = 16 →
      mkBatchVector2 c5wParams = none ∧ batchStartOf2 c5wParams 16 = none) ∧
    (0 ≤ c5wParams.batchIndex2 → c5wParams.batchIndex2 ≤ 37 → c5wParams.batchIndex2 ≠ 16 →
      ∃ s2 v2, batchStartOf2 c5wParams c5wParams.batchIndex2 = some s2 ∧
        mkBatchVector2 c5wParams =
          some (s2, c5wParams.batchDestination2 * batchScaleOf2 c5wParams.batchIndex2, v2) ∧
        v2.length = c5wParams.Nsims2.toNat ∧
        (2 ≤ c5wParams.Nsims2.toNat → ∀ k, k < c5wParams.Nsims2.toNat →
          v2.getD k 0 = s2 + (k : ℚ) *
            (c5wParams.batchDestination2 * batchScaleOf2 c5wParams.batchIndex2 - s2) /
            ((c5wParams.Nsims2.toNat : ℚ) - 1)) ∧
        (c5wParams.Nsims2.toNat = 1 → v2 = [s2]))) :=
  ⟨⟨rfl, by decide, by decide⟩,
   c5_batch_axis c5wParams 3 rfl (by decide) (by decide)⟩

/-- C6 failing input: two single-point shard results whose scanned parameter
`frequency1` differs (1 in shard 0, 2 in shard 1). -/
def c6Base : LWEResult := { params := { frequency1 := 1, Nsims := 1 } }

def c6Shard : LWEResult := { params := { frequency1 := 2, Nsims := 1 } }

/-- C6: the loop body of `loadSplit` appends
`getattr(baseStructure, batchType)` — the *first* shard's value — instead of
the newly loaded shard's, so the synthetic `batchVector` repeats shard 0's
parameter value: at the failing input it is `[1, 1]`, not the per-shard
sequence `[1, 2]` the claim describes. -/
theorem c6_loadSplit_batchVector :
    (loadSplitModel c6Base [c6Shard] (fun r => r.params.frequency1) 2).batchVector =
      [1, 1] ∧
    ([c6Base, c6Shard].map (fun r => r.params.frequency1)) = [1, 2] ∧
    (loadSplitModel c6Base [c6Shard] (fun r => r.params.frequency1) 2).batchVector ≠
      [c6Base, c6Shard].map (fun r => r.params.frequency1) :=
  ⟨rfl, rfl, by decide⟩

/-- C9: `loadSplit` rebuilds only the five data arrays, `batchVector` and
`batchStart`; every other field of the first shard's result — the scalar
parameters (hence `Nsims`), the derived grid dimensions, the second scan
slot and the sampling axes — keeps the first shard's value, while the
spectrum arrays get a leading batch extent `Ntotal` and the field arrays a
trailing one. -/
theorem c9_loadSplit_frame (base : LWEResult) (rest : List LWEResult)
    (sel : LWEResult → ℚ) (Ntotal : ℕ) :
    (loadSplitModel base rest sel Ntotal).params = base.params ∧
    (loadSplitModel base rest sel Ntotal).Ntime = base.Ntime ∧
    (loadSplitModel base rest sel Ntotal).Nfreq = base.Nfreq ∧
    (loadSplitModel base rest sel Ntotal).fStep = base.fStep ∧
    (loadSplitModel base rest sel Ntotal).Nspace = base.Nspace ∧
    (loadSplitModel base rest sel Ntotal).Nspace2 = base.Nspace2 ∧
    (loadSplitModel base rest sel Ntotal).Ngrid = base.Ngrid ∧
    (loadSplitModel base rest sel Ntotal).batchStart2 = base.batchStart2 ∧
    (loadSplitModel base rest sel Ntotal).batchVector2 = base.batchVector2 ∧
    (loadSplitModel base rest sel Ntotal).timeVector = base.timeVector ∧
    (loadSplitModel base rest sel Ntotal).frequencyVector = base.frequencyVector ∧
    (loadSplitModel base rest sel Ntotal).frequencyVectorSpectrum =
      base.frequencyVectorSpectrum ∧
    (loadSplitModel base rest sel Ntotal).spaceVector = base.spaceVector ∧
    (loadSplitModel base rest sel Ntotal).params.Nsims = base.params.Nsims ∧
    (base.params.Nsims = 1 → (loadSplitModel base rest sel Ntotal).params.Nsims = 1) ∧
    (loadSplitModel base rest sel Ntotal).spectrum_x.shape =
      [Ntotal, base.spectrum_x.shape.getD 0 0] ∧
    (loadSplitModel base rest sel Ntotal).spectrum_y.shape =
      [Ntotal, base.spectrum_x.shape.getD 0 0] ∧
    (loadSplitModel base rest sel Ntotal).spectrumTotal.shape =
      [Ntotal, base.spectrum_x.shape.getD 0 0] ∧
    (loadSplitModel base rest sel Ntotal).Ext_x.shape = base.Ext_x.shape ++ [Ntotal] ∧
    (loadSplitModel base rest sel Ntotal).batchStart = sel base :=
  ⟨rfl, rfl, rfl, rfl, rfl, rfl, rfl, rfl, rfl, rfl, rfl, rfl, rfl, rfl,
   fun h => h, rfl, rfl, rfl, rfl, rfl⟩

/-- C10: `frequencyVectorSpectrum` is the first `Nfreq` entries of
`frequencyVector` (a numpy view), so the in-place sign flip of its last
element also negates `frequencyVector[Nfreq-1]`: for even `Ntime ≥ 2` both
vectors end up holding `+1/(2·timeStep)` there — the negation of the value
`np.fft.fftfreq` put at that index — and every other entry of
`frequencyVector` is unchanged. -/
theorem c10_nyquist_aliasing (Ntime Nfreq : ℕ) (d : ℚ) (heven : Ntime % 2 = 0)
    (h2 : 2 ≤ Ntime) (hNf : Nfreq = Ntime / 2 + 1) (hd : 0 < d) :
    (mkFrequencyVectors Ntime Nfreq d).2 =
      (mkFrequencyVectors Ntime Nfreq d).1.take Nfreq ∧
    (mkFrequencyVectors Ntime Nfreq d).1.getD (Nfreq - 1) 0 = 1 / (2 * d) ∧
    (mkFrequencyVectors Ntime Nfreq d).2.getD (Nfreq - 1) 0 = 1 / (2 * d) ∧
    (npFftfreq Ntime d).getD (Nfreq - 1) 0 = -(1 / (2 * d)) ∧
    (∀ m, m < Ntime → m ≠ Nfreq - 1 →
      (mkFrequencyVectors Ntime Nfreq d).1.getD m 0 = (npFftfreq Ntime d).getD m 0) ∧
    (mkFrequencyVectors Ntime Nfreq d).1.length = Ntime ∧
    (mkFrequencyVectors Ntime Nfreq d).2.length = Nfreq := by
  have hd0 : d ≠ 0 := ne_of_gt hd
  have hlen0 : (npFftfreq Ntime d).length = Ntime := by
    simp [npFftfreq]
  have hidx : Nfreq - 1 = Ntime / 2 := by omega
  have hlt : Nfreq - 1 < Ntime := by omega
  have hval : (npFftfreq Ntime d).getD (Nfreq - 1) 0 = -(1 / (2 * d)) := by
    rw [npFftfreq, getD_mapRange _ _ _ _ hlt]
    have hnot : ¬(2 * (Nfreq - 1) < Ntime) := by omega
    rw [if_neg hnot]
    have h2m : Ntime = 2 * (Nfreq - 1) := by omega
    rw [h2m]
    have hm0 : (Nfreq - 1 : ℕ) ≠ 0 := by omega
    have hmq : ((Nfreq - 1 : ℕ) : ℚ) ≠ 0 := Nat.cast_ne_zero.mpr hm0
    push_cast
    field_simp
    ring
  have hset : (mkFrequencyVectors Ntime Nfreq d).1.getD (Nfreq - 1) 0 = 1 / (2 * d) := by
    rw [mkFrequencyVectors]
    simp only []
    rw [List.getD_eq_getElem?_getD, List.getElem?_set_self (by omega : Nfreq - 1 < _)]
    · rw [Option.getD_some, hval]
      ring
  refine ⟨rfl, hset, ?_, hval, ?_, ?_, ?_⟩
  · rw [mkFrequencyVectors]
    simp only []
    rw [getD_take _ _ _ _ (by omega : Nfreq - 1 < Nfreq)]
    exact hset
  · intro m hm hne
    rw [mkFrequencyVectors]
    simp only []
    rw [List.getD_eq_getElem?_getD, List.getElem?_set_ne (by omega : Nfreq - 1 ≠ m),
      ← List.getD_eq_getElem?_getD]
  · show ((npFftfreq Ntime d).set (Nfreq - 1) _).length = Ntime
    rw [List.length_set, hlen0]
  · show (((npFftfreq Ntime d).set (Nfreq - 1) _).take Nfreq).length = Nfreq
    rw [List.length_take, List.length_set, hlen0]
    omega

theorem c10_nyquist_aliasing_witness :
    ((8 : ℕ) % 2 = 0 ∧ (2 : ℕ) ≤ 8 ∧ (5 : ℕ) = 8 / 2 + 1 ∧ (0 : ℚ) < 1) ∧
    ((mkFrequencyVectors 8 5 1).2 = (mkFrequencyVectors 8 5 1).1.take 5 ∧
     (mkFrequencyVectors 8 5 1).1.getD (5 - 1) 0 = 1 / (2 * 1) ∧
     (mkFrequencyVectors 8 5 1).2.getD (5 - 1) 0 = 1 / (2 * 1) ∧
     (npFftfreq 8 1).getD (5 - 1) 0 = -(1 / (2 * 1)) ∧
     (∀ m, m < 8 → m ≠ 5 - 1 →
       (mkFrequencyVectors 8 5 1).1.getD m 0 = (npFftfreq 8 1).getD m 0) ∧
     (mkFrequencyVectors 8 5 1).1.length = 8 ∧
     (mkFrequencyVectors 8 5 1).2.length = 5) :=
  ⟨⟨by decide, by decide, by decide, by with_unfolding_all decide⟩,
   c10_nyquist_aliasing 8 5 1 (by decide) (by decide) (by decide)
     (by with_unfolding_all decide)⟩

lemma readIndices_ok_iff (lines : List (List Char)) : ∀ (is : List ℕ),
    isOkE (readIndices lines is) = true ↔
      ∀ i ∈ is, ∃ l, lines[i]? = some l ∧ isOkE (readLine l) = true := by
  intro is
  induction is with
  | nil =>
    simp [readIndices, isOkE]
  | cons i is ih =>
    rw [List.forall_mem_cons]
    cases hl : lines[i]? with
    | none => simp [readIndices, hl, isOkE]
    | some l =>
      cases hr : readLine l with
      | error e => simp [readIndices, hl, hr, isOkE]
      | ok q =>
        cases hrec : readIndices lines is with
        | error e =>
          simp only [readIndices, hl, hr, hrec, isOkE]
          constructor
          · intro h
            exact Bool.noConfusion h
          · rintro ⟨-, htail⟩
            have h2 := ih.mpr htail
            rw [hrec] at h2
            exact Bool.noConfusion h2
        | ok qs =>
          simp only [readIndices, hl, hr, hrec, isOkE]
          constructor
          · intro _
            refine ⟨⟨l, rfl, ?_⟩, ?_⟩
            · rw [hr]
            · exact ih.mp (by rw [hrec]; rfl)
          · intro _
            trivial

lemma readIndices_ok_getD (lines : List (List Char)) : ∀ (is : List ℕ) (qs : List ℚ),
    readIndices lines is = Except.ok qs →
    qs.length = is.length ∧
    (∀ k, k < is.length → ∃ l, lines[(is.getD k 0)]? = some l ∧
      readLine l = Except.ok (qs.getD k 0)) := by
  intro is
  induction is with
  | nil =>
    intro qs h
    rw [readIndices] at h
    cases h
    exact ⟨rfl, fun k hk => absurd hk (by simp)⟩
  | cons i is ih =>
    intro qs h
    rw [readIndices] at h
    split at h
    · exact absurd h (by simp)
    · rename_i l hl
      split at h
      · exact absurd h (by simp)
      · rename_i q hr
        split at h
        · exact absurd h (by simp)
        · rename_i qs2 hrec
          cases h
          obtain ⟨hlen, helts⟩ := ih qs2 hrec
          refine ⟨by simpa using hlen, ?_⟩
          intro k hk
          cases k with
          | zero => exact ⟨l, hl, hr⟩
          | succ k' => exact helts k' (by simpa using hk)

lemma getD_range (n k : ℕ) (h : k < n) : (List.range n).getD k 0 = k := by
  rw [List.getD_eq_getElem?_getD, List.getElem?_range h]
  rfl

/-- C7 (amended): the parser binds each of the **59** schema names, in fixed
order, to the `float` of the last numeric token of the corresponding line,
then casts `Nsims`, `Nsims2`, `symmetryType`, `batchIndex`, `batchIndex2` to
integers; reading fails with `IndexError` when the manifest has fewer lines
than the schema or a line has no numeric token, and additionally with
`ValueError` when the last token is not a valid `float` literal (e.g. it
contains thousands separators, which the regex admits but `float` rejects). -/
theorem c7_manifest_reader (lines : List (List Char)) :
    parameterNames.length = 59 ∧
    (isOkE (readAllParams lines) = true ↔
      ∀ i, i < 59 → ∃ l, lines[i]? = some l ∧ isOkE (readLine l) = true) ∧
    (∀ l, isOkE (readLine l) = true ↔
      ∃ t, (findallNum l).getLast? = some t ∧ (pyFloat t).isSome = true) ∧
    (∀ l, readLine l = Except.error PyErr.indexError ↔ (findallNum l).getLast? = none) ∧
    (∀ l, readLine l = Except.error PyErr.valueError ↔
      ∃ t, (findallNum l).getLast? = some t ∧ pyFloat t = none) ∧
    (lines.length < parameterNames.length → isOkE (readAllParams lines) = false) ∧
    (∀ qs, readAllParams lines = Except.ok qs →
      qs.length = 59 ∧
      ∀ k, k < 59 → ∃ l, lines[k]? = some l ∧ readLine l = Except.ok (qs.getD k 0)) ∧
    (∀ qs, (mkParams qs).Nsims = pyInt (qs.getD 55 0) ∧
      (mkParams qs).Nsims2 = pyInt (qs.getD 58 0) ∧
      (mkParams qs).symmetryType = pyInt (qs.getD 52 0) ∧
      (mkParams qs).batchIndex = pyInt (qs.getD 53 0) ∧
      (mkParams qs).batchIndex2 = pyInt (qs.getD 56 0) ∧
      (mkParams qs).delay1 = qs.getD 10 0 ∧
      (mkParams qs).timeStep = qs.getD 45 0 ∧
      (mkParams qs).batchDestination = qs.getD 54 0) ∧
    loadParams lines = (readAllParams lines).map mkParams := by
  refine ⟨rfl, ?_, ?_, ?_, ?_, ?_, ?_, ?_, rfl⟩
  · rw [readAllParams, readIndices_ok_iff]
    constructor
    · intro h i hi
      exact h i (by simpa using List.mem_range.mpr hi)
    · intro h i hi
      exact h i (by simpa using hi)
  · intro l
    rw [readLine]
    cases hlast : (findallNum l).getLast? with
    | none =>
      simp only [isOkE]
      constructor
      · intro h
        cases h
      · rintro ⟨t, ht, _⟩
        cases ht
    | some t =>
      simp only [isOkE]
      cases hf : pyFloat t with
      | none =>
        constructor
        · intro h
          exact Bool.noConfusion h
        · rintro ⟨t2, ht2, hs⟩
          cases ht2
          rw [hf] at hs
          exact Bool.noConfusion hs
      | some q =>
        constructor
        · intro _
          exact ⟨t, rfl, by simp [hf]⟩
        · intro _
          rfl
  · intro l
    rw [readLine]
    cases hlast : (findallNum l).getLast? with
    | none => simp
    | some t =>
      cases hf : pyFloat t with
      | none => simp [hf]
      | some q => simp [hf]
  · intro l
    rw [readLine]
    cases hlast : (findallNum l).getLast? with
    | none => simp
    | some t =>
      cases hf : pyFloat t with
      | none => simp [hf]
      | some q => simp [hf]
  · intro hlen
    cases hOk : isOkE (readAllParams lines) with
    | false => rfl
    | true =>
      have h := (readIndices_ok_iff lines (List.range parameterNames.length)).mp hOk
      obtain ⟨l, hl, -⟩ := h lines.length (List.mem_range.mpr hlen)
      rw [List.getElem?_eq_none (le_refl _)] at hl
      exact Option.noConfusion hl
  · intro qs h
    rw [readAllParams] at h
    obtain ⟨hlen, helts⟩ := readIndices_ok_getD lines _ qs h
    refine ⟨by simpa using hlen, ?_⟩
    intro k hk
    have := helts k (by simpa using hk)
    rwa [getD_range _ _ (by simpa using hk)] at this
  · intro qs
    exact ⟨rfl, rfl, rfl, rfl, rfl, rfl, rfl, rfl⟩

/-- C7 counterexample: the schema has 59 names, not 57; and the line `1,234`
has a numeric token (the full regex match `1,234`), yet `float` raises
`ValueError` on it — so the parser does not fail *exactly* in the two cases
the claim allows. -/
theorem c7_counterexample :
    parameterNames.length ≠ 57 ∧
    findallNum ("1,234".toList) = [("1,234".toList)] ∧
    readLine ("1,234".toList) = Except.error PyErr.valueError := by
  refine ⟨by decide, by decide, by with_unfolding_all decide⟩


/-! ### C8: `fuseZips` refines `fuseBinaries` on extracted shard files -/

lemma startsWithB_nil (l : List ℕ) : startsWithB l [] = true := by
  cases l <;> rfl

lemma startsWithB_refl : ∀ (a : List ℕ), startsWithB a a = true := by
  intro a
  induction a with
  | nil => rfl
  | cons c cs ih => simp [startsWithB, ih]

lemma startsWithB_append : ∀ (l m p : List ℕ),
    startsWithB (l ++ m) p =
      (startsWithB l (p.take l.length) && startsWithB m (p.drop l.length)) := by
  intro l
  induction l with
  | nil =>
    intro m p
    simp [startsWithB_nil]
  | cons c cs ih =>
    intro m p
    cases p with
    | nil => simp [startsWithB, startsWithB_nil]
    | cons q ps =>
      simp only [List.cons_append, startsWithB, List.length_cons, List.take_succ_cons,
        List.drop_succ_cons, List.append_eq, ih m ps, Bool.and_assoc]

lemma lexLt_self : ∀ (a : List ℕ), lexLt a a = false := by
  intro a
  induction a with
  | nil => rfl
  | cons c cs ih => simp [lexLt, ih]

lemma lexLt_append_congr : ∀ (a b : List ℕ), a.length = b.length → ∀ (s t : List ℕ),
    lexLt (a ++ s) (b ++ t) = if a = b then lexLt s t else lexLt a b := by
  intro a
  induction a with
  | nil =>
    intro b hb s t
    cases b with
    | nil => simp
    | cons d ds => simp at hb
  | cons c cs ih =>
    intro b hb s t
    cases b with
    | nil => simp at hb
    | cons d ds =>
      simp only [List.cons_append, lexLt, List.append_eq]
      rw [ih ds (by simpa using hb) s t]
      by_cases hcd : c = d
      · subst hcd
        by_cases hcs : cs = ds
        · subst hcs
          simp [lexLt]
        · simp [hcs, lexLt]
      · have hbe : (c == d) = false := by simpa using hcd
        simp [hcd, hbe]

lemma endsWithB_append_of_le (x s e : List ℕ) (h : e.length ≤ s.length) :
    endsWithB (x ++ s) e = endsWithB s e := by
  rw [endsWithB, endsWithB, List.reverse_append, startsWithB_append,
    List.take_of_length_le (by simpa using h),
    List.drop_of_length_le (by simpa using h), startsWithB_nil, Bool.and_true]

lemma endsWithB_append_self (x e : List ℕ) : endsWithB (x ++ e) e = true := by
  rw [endsWithB_append_of_le x e e le_rfl, endsWithB, startsWithB_refl]

lemma endsWithB_spec_ext (x : List ℕ) : endsWithB (x ++ specSuffix) extSuffix = false := by
  rw [endsWithB_append_of_le _ _ _ (by decide)]
  decide

lemma endsWithB_ext_spec (x : List ℕ) : endsWithB (x ++ extSuffix) specSuffix = false := by
  rw [endsWithB, List.reverse_append, startsWithB_append]
  have h : startsWithB extSuffix.reverse
      (specSuffix.reverse.take extSuffix.reverse.length) = false := by decide
  rw [h, Bool.false_and]

lemma startsWithB_append_self (a r : List ℕ) : startsWithB (a ++ r) a = true := by
  rw [startsWithB_append, List.take_length, List.drop_length, startsWithB_refl,
    startsWithB_nil, Bool.and_true]

lemma mem_insertSorted (key : α → List ℕ) (x : α) : ∀ (ys : List α) (z : α),
    z ∈ insertSorted key x ys ↔ z = x ∨ z ∈ ys := by
  intro ys
  induction ys with
  | nil => intro z; simp [insertSorted]
  | cons y ys ih =>
    intro z
    rw [insertSorted]
    by_cases hc : lexLt (key x) (key y)
    · rw [if_pos hc]
      simp only [List.mem_cons]
    · rw [if_neg hc]
      simp only [List.mem_cons, ih]
      tauto

lemma mem_sortByKey (key : α → List ℕ) : ∀ (xs : List α) (z : α),
    z ∈ sortByKey key xs ↔ z ∈ xs := by
  intro xs
  induction xs with
  | nil => intro z; simp [sortByKey]
  | cons x xs ih =>
    intro z
    rw [sortByKey, mem_insertSorted]
    simp [ih]

lemma insertSorted_map_congr (f : α → β) (k1 : β → List ℕ) (k2 : α → List ℕ) (x : α) :
    ∀ (ys : List α), (∀ y ∈ ys, lexLt (k1 (f x)) (k1 (f y)) = lexLt (k2 x) (k2 y)) →
    insertSorted k1 (f x) (ys.map f) = (insertSorted k2 x ys).map f := by
  intro ys
  induction ys with
  | nil => intro _; rfl
  | cons y ys ih =>
    intro h
    rw [List.map_cons, insertSorted, insertSorted, h y (List.mem_cons_self y ys)]
    by_cases hc : lexLt (k2 x) (k2 y)
    · rw [if_pos hc, if_pos hc, List.map_cons, List.map_cons]
    · rw [if_neg hc, if_neg hc, List.map_cons,
        ih (fun y2 hy2 => h y2 (List.mem_cons_of_mem _ hy2))]

lemma sortByKey_map_congr (f : α → β) (k1 : β → List ℕ) (k2 : α → List ℕ) :
    ∀ (xs : List α), (∀ x1 ∈ xs, ∀ x2 ∈ xs, lexLt (k1 (f x1)) (k1 (f x2)) = lexLt (k2 x1) (k2 x2)) →
    sortByKey k1 (xs.map f) = (sortByKey k2 xs).map f := by
  intro xs
  induction xs with
  | nil => intro _; rfl
  | cons x xs ih =>
    intro h
    rw [List.map_cons, sortByKey, sortByKey,
      ih (fun a ha b hb => h a (List.mem_cons_of_mem _ ha) b (List.mem_cons_of_mem _ hb))]
    exact insertSorted_map_congr f k1 k2 x (sortByKey k2 xs)
      (fun y hy => h x (List.mem_cons_self x xs) y
        (List.mem_cons_of_mem _ ((mem_sortByKey k2 xs y).mp hy)))

lemma keys_congr (b s1 s2 u v : List ℕ) (h : s1.length = s2.length) :
    lexLt ((b ++ s1) ++ u) ((b ++ s2) ++ u) = lexLt ((b ++ s1) ++ v) ((b ++ s2) ++ v) := by
  rw [lexLt_append_congr (b ++ s1) (b ++ s2) (by simp [h]) u u,
    lexLt_append_congr (b ++ s1) (b ++ s2) (by simp [h]) v v]
  by_cases he : b ++ s1 = b ++ s2
  · rw [if_pos he, if_pos he, lexLt_self, lexLt_self]
  · rw [if_neg he, if_neg he]

lemma fuseFileModel_eq (dir : List FlatFile) (base ending : List ℕ) :
    fuseFileModel dir base ending =
      ((sortByKey Prod.fst ((dir.filter (fun f => f.1 != base ++ ending)).filter
        (fun f => startsWithB f.1 base && endsWithB f.1 ending))).map Prod.snd).flatten := rfl

lemma fuseZipsModel_eq (zips : List ShardZip) (baseName : List ℕ) :
    fuseZipsModel zips baseName =
      (((sortByKey (fun z => z.base ++ zipSuffix) (zips.filter (fun z =>
          startsWithB (z.base ++ zipSuffix) baseName &&
          endsWithB (z.base ++ zipSuffix) zipSuffix &&
          (z.base ++ zipSuffix) != baseName ++ zipSuffix))).map ShardZip.ext).flatten,
       ((sortByKey (fun z => z.base ++ zipSuffix) (zips.filter (fun z =>
          startsWithB (z.base ++ zipSuffix) baseName &&
          endsWithB (z.base ++ zipSuffix) zipSuffix &&
          (z.base ++ zipSuffix) != baseName ++ zipSuffix))).map ShardZip.spectrum).flatten) := rfl

/-- C8: on any family of single-point shard archives that follow the shard
naming convention — every archive is named `baseName ++ s ++ ".zip"` with the
numeric tags `s` all of the same (positive) width, as in `Result00000.zip`,
`Result00001.zip`, … — the `_Ext.dat` and `_spectrum.dat` contents that
`fuseZips` writes into the destination archive equal the two destination files
`fuseBinaries` produces from the extracted flat shard files: the verbatim
in-order concatenation of the shards' field (resp. spectrum) bytes, shards
taken in lexicographic name order. -/
theorem c8_fuse_equivalence (zips : List ShardZip) (baseName : List ℕ) (L : ℕ) (hL : 0 < L)
    (hnames : ∀ z ∈ zips, ∃ s, z.base = baseName ++ s ∧ s.length = L) :
    fuseZipsModel zips baseName = fuseBinariesModel (extractAll zips) baseName := by
  have hse : extSuffix.length = 8 := by decide
  have hss : specSuffix.length = 13 := by decide
  have hsz : zipSuffix.length = 4 := by decide
  have hzf : zips.filter (fun z =>
      startsWithB (z.base ++ zipSuffix) baseName &&
      endsWithB (z.base ++ zipSuffix) zipSuffix &&
      (z.base ++ zipSuffix) != baseName ++ zipSuffix) = zips := by
    apply List.filter_eq_self.mpr
    intro z hz
    obtain ⟨s, hzb, hsl⟩ := hnames z hz
    have h1 : startsWithB (z.base ++ zipSuffix) baseName = true := by
      rw [hzb, List.append_assoc]
      exact startsWithB_append_self _ _
    have h2 : endsWithB (z.base ++ zipSuffix) zipSuffix = true := endsWithB_append_self _ _
    have h3 : (z.base ++ zipSuffix) ≠ baseName ++ zipSuffix := by
      intro he
      have : (z.base ++ zipSuffix).length = (baseName ++ zipSuffix).length := by rw [he]
      simp only [hzb, List.length_append, hsl, hse, hss, hsz] at this
      omega
    simp [h1, h2, h3]
  have hcmp : ∀ (u : List ℕ), ∀ z1 ∈ zips, ∀ z2 ∈ zips,
      lexLt (z1.base ++ u) (z2.base ++ u) =
      lexLt (z1.base ++ zipSuffix) (z2.base ++ zipSuffix) := by
    intro u z1 h1 z2 h2
    obtain ⟨s1, hb1, hl1⟩ := hnames z1 h1
    obtain ⟨s2, hb2, hl2⟩ := hnames z2 h2
    rw [hb1, hb2]
    exact keys_congr baseName s1 s2 u zipSuffix (hl1.trans hl2.symm)
  have hExt : fuseFileModel (extractAll zips) baseName extSuffix =
      ((sortByKey (fun z => z.base ++ zipSuffix) zips).map ShardZip.ext).flatten := by
    rw [fuseFileModel_eq, extractAll, List.filter_append, List.filter_append]
    have hA1 : (zips.map (fun z => (z.base ++ extSuffix, z.ext))).filter
        (fun f => f.1 != baseName ++ extSuffix) =
        zips.map (fun z => (z.base ++ extSuffix, z.ext)) := by
      apply List.filter_eq_self.mpr
      intro f hf
      obtain ⟨z, hz, rfl⟩ := List.mem_map.mp hf
      obtain ⟨s, hzb, hsl⟩ := hnames z hz
      have : z.base ++ extSuffix ≠ baseName ++ extSuffix := by
        intro he
        have : (z.base ++ extSuffix).length = (baseName ++ extSuffix).length := by rw [he]
        simp only [hzb, List.length_append, hsl, hse, hss, hsz] at this
        omega
      simpa using this
    have hB1 : (zips.map (fun z => (z.base ++ specSuffix, z.spectrum))).filter
        (fun f => f.1 != baseName ++ extSuffix) =
        zips.map (fun z => (z.base ++ specSuffix, z.spectrum)) := by
      apply List.filter_eq_self.mpr
      intro f hf
      obtain ⟨z, hz, rfl⟩ := List.mem_map.mp hf
      obtain ⟨s, hzb, hsl⟩ := hnames z hz
      have : z.base ++ specSuffix ≠ baseName ++ extSuffix := by
        intro he
        have : (z.base ++ specSuffix).length = (baseName ++ extSuffix).length := by rw [he]
        simp only [hzb, List.length_append, hsl, hse, hss, hsz] at this
        omega
      simpa using this
    rw [hA1, hB1]
    have hA2 : (zips.map (fun z => (z.base ++ extSuffix, z.ext))).filter
        (fun f => startsWithB f.1 baseName && endsWithB f.1 extSuffix) =
        zips.map (fun z => (z.base ++ extSuffix, z.ext)) := by
      apply List.filter_eq_self.mpr
      intro f hf
      obtain ⟨z, hz, rfl⟩ := List.mem_map.mp hf
      obtain ⟨s, hzb, hsl⟩ := hnames z hz
      have h1 : startsWithB (z.base ++ extSuffix) baseName = true := by
        rw [hzb, List.append_assoc]
        exact startsWithB_append_self _ _
      simp [h1, endsWithB_append_self]
    have hB2 : (zips.map (fun z => (z.base ++ specSuffix, z.spectrum))).filter
        (fun f => startsWithB f.1 baseName && endsWithB f.1 extSuffix) = [] := by
      apply List.filter_eq_nil_iff.mpr
      intro f hf
      obtain ⟨z, hz, rfl⟩ := List.mem_map.mp hf
      simp [endsWithB_spec_ext]
    rw [hA2, hB2, List.append_nil,
      sortByKey_map_congr (fun z => (z.base ++ extSuffix, z.ext)) Prod.fst
        (fun z => z.base ++ zipSuffix) zips (fun z1 h1 z2 h2 => hcmp extSuffix z1 h1 z2 h2),
      List.map_map]
    exact congrArg List.flatten (List.map_congr_left (fun z hz => rfl))
  have hSpec : fuseFileModel (extractAll zips) baseName specSuffix =
      ((sortByKey (fun z => z.base ++ zipSuffix) zips).map ShardZip.spectrum).flatten := by
    rw [fuseFileModel_eq, extractAll, List.filter_append, List.filter_append]
    have hA1 : (zips.map (fun z => (z.base ++ extSuffix, z.ext))).filter
        (fun f => f.1 != baseName ++ specSuffix) =
        zips.map (fun z => (z.base ++ extSuffix, z.ext)) := by
      apply List.filter_eq_self.mpr
      intro f hf
      obtain ⟨z, hz, rfl⟩ := List.mem_map.mp hf
      have : z.base ++ extSuffix ≠ baseName ++ specSuffix := by
        intro he
        have h1 : endsWithB (z.base ++ extSuffix) extSuffix = true := endsWithB_append_self _ _
        have h2 : endsWithB (baseName ++ specSuffix) extSuffix = false := endsWithB_spec_ext _
        rw [he, h2] at h1
        exact Bool.noConfusion h1
      simpa using this
    have hB1 : (zips.map (fun z => (z.base ++ specSuffix, z.spectrum))).filter
        (fun f => f.1 != baseName ++ specSuffix) =
        zips.map (fun z => (z.base ++ specSuffix, z.spectrum)) := by
      apply List.filter_eq_self.mpr
      intro f hf
      obtain ⟨z, hz, rfl⟩ := List.mem_map.mp hf
      obtain ⟨s, hzb, hsl⟩ := hnames z hz
      have : z.base ++ specSuffix ≠ baseName ++ specSuffix := by
        intro he
        have : (z.base ++ specSuffix).length = (baseName ++ specSuffix).length := by rw [he]
        simp only [hzb, List.length_append, hsl, hse, hss, hsz] at this
        omega
      simpa using this
    rw [hA1, hB1]
    have hA2 : (zips.map (fun z => (z.base ++ extSuffix, z.ext))).filter
        (fun f => startsWithB f.1 baseName && endsWithB f.1 specSuffix) = [] := by
      apply List.filter_eq_nil_iff.mpr
      intro f hf
      obtain ⟨z, hz, rfl⟩ := List.mem_map.mp hf
      simp [endsWithB_ext_spec]
    have hB2 : (zips.map (fun z => (z.base ++ specSuffix, z.spectrum))).filter
        (fun f => startsWithB f.1 baseName && endsWithB f.1 specSuffix) =
        zips.map (fun z => (z.base ++ specSuffix, z.spectrum)) := by
      apply List.filter_eq_self.mpr
      intro f hf
      obtain ⟨z, hz, rfl⟩ := List.mem_map.mp hf
      obtain ⟨s, hzb, hsl⟩ := hnames z hz
      have h1 : startsWithB (z.base ++ specSuffix) baseName = true := by
        rw [hzb, List.append_assoc]
        exact startsWithB_append_self _ _
      simp [h1, endsWithB_append_self]
    rw [hA2, hB2, List.nil_append,
      sortByKey_map_congr (fun z => (z.base ++ specSuffix, z.spectrum)) Prod.fst
        (fun z => z.base ++ zipSuffix) zips (fun z1 h1 z2 h2 => hcmp specSuffix z1 h1 z2 h2),
      List.map_map]
    exact congrArg List.flatten (List.map_congr_left (fun z hz => rfl))
  rw [fuseZipsModel_eq, hzf, fuseBinariesModel, hExt, hSpec]

/-- C8 witness: two shards `r0.zip`, `r1.zip` fused under base name `r`;
both fusers produce the ext bytes `[1, 2] ++ [5, 6]` and the spectrum bytes
`[3, 4] ++ [7, 8]`. -/
theorem c8_fuse_equivalence_witness :
    fuseZipsModel [⟨codes ("r0"), [1, 2], [3, 4]⟩, ⟨codes ("r1"), [5, 6], [7, 8]⟩] (codes ("r")) =
      fuseBinariesModel
        (extractAll [⟨codes ("r0"), [1, 2], [3, 4]⟩, ⟨codes ("r1"), [5, 6], [7, 8]⟩])
        (codes ("r")) ∧
    fuseZipsModel [⟨codes ("r0"), [1, 2], [3, 4]⟩, ⟨codes ("r1"), [5, 6], [7, 8]⟩] (codes ("r")) =
      ([1, 2, 5, 6], [3, 4, 7, 8]) := by
  constructor
  · apply c8_fuse_equivalence _ _ 1 (by decide)
    intro z hz
    simp only [List.mem_cons, List.not_mem_nil, or_false] at hz
    rcases hz with rfl | rfl
    · exact ⟨codes ("0"), by decide, by decide⟩
    · exact ⟨codes ("1"), by decide, by decide⟩
  · decide


end LWE
